import Mathlib

/-!
Verification development for the feos-core phase-equilibrium library.

The definitions below are a shallow embedding of the Rust sources:

* `src/phase_equilibria/phase_diagram_pure.rs` (`PhaseDiagram::pure`),
* `src/phase_equilibria/phase_diagram_binary.rs` (`PhaseDiagramBinary::new_vle`,
  `new_vlle`, `new_lle`, `iterate_vle`, `PhaseEquilibrium::heteroazeotrope_t`,
  `heteroazeotrope_p`),
* `src/state/critical_point.rs` (`State::critical_point`, `critical_point_hkm`,
  `critical_point_pure`, `critical_point_binary`, `CritOp::apply`),
* `src/errors.rs` (`EosError`).

Machine floats are modelled by `ℚ`; the numerical routines that live outside
these files (equation-of-state evaluations, LU solves, bubble points, flashes,
state construction) are abstracted as function parameters, so the theorems are
about the control flow and arithmetic that the files above actually implement.
-/

/-- Embedding of `EosError` from `src/errors.rs`.  The wrapped external error
kinds (`QuantityError`, `ParameterError`, `ArgminError`, `LinAlgError`) are
collapsed into a single `Wrapped` constructor since their payloads are opaque
to the embedded code. -/
inductive EosError where
  | NotConverged (msg : String)
  | IterationFailed (msg : String)
  | TrivialSolution
  | IncompatibleComponents (m n : ℕ)
  | InvalidState (loc var : String) (value : ℚ)
  | UndeterminedState (msg : String)
  | SuperCritical
  | NoPhaseSplit
  | Wrapped (code : ℕ)
deriving DecidableEq, Repr

/-- Modelled from the spec: `Solver Options` (§3 of the specification) is the
per-call configuration `{max_iter, tolerance, verbosity}` with `None` fields
meaning "use the documented per-solver default".  The struct itself is defined
outside the embedded source files; verbosity is irrelevant to the claims and
omitted. -/
structure SolverOptions where
  max_iter : Option ℕ
  tol : Option ℚ
deriving DecidableEq, Repr

/-- `SolverOptions::default()`: both fields unset. -/
def SolverOptions.default : SolverOptions := ⟨none, none⟩

/-- `SolverOptions::unwrap_or` as used in `critical_point.rs`. -/
def SolverOptions.unwrap_or (o : SolverOptions) (max_iter : ℕ) (tol : ℚ) : ℕ × ℚ :=
  (o.max_iter.getD max_iter, o.tol.getD tol)

/-- `MAX_ITER_CRIT_POINT` from `critical_point.rs`. -/
def MAX_ITER_CRIT_POINT : ℕ := 50

/-- `TOL_CRIT_POINT = 1e-8` from `critical_point.rs`. -/
def TOL_CRIT_POINT : ℚ := 1 / 100000000

/-- `MAX_ITER_HETERO` from `phase_diagram_binary.rs`. -/
def MAX_ITER_HETERO : ℕ := 50

/-- `TOL_HETERO = 1e-8` from `phase_diagram_binary.rs`. -/
def TOL_HETERO : ℚ := 1 / 100000000

/-- `DEFAULT_POINTS` from `phase_diagram_binary.rs`. -/
def DEFAULT_POINTS : ℕ := 51

/-! ## The continuation loop shared by the phase-diagram constructors

`PhaseDiagram::pure` (phase_diagram_pure.rs, lines 44–50),
`PhaseDiagramBinary::new_lle` (phase_diagram_binary.rs, lines 257–273) and
`iterate_vle` (phase_diagram_binary.rs, lines 330–359) all run the same loop
shape: keep a warm-start value, call the step solver, on success push the
result and refresh the warm start from it, on failure push nothing and reset
the warm start (`.ok()` turns the error into `None`; `iterate_vle` sets
`y_old = None; tp_old = None` explicitly). -/

/-- The data of one continuation loop: the step solver (`solve t w` is the
solver call at control value `t` with warm-start data `w`, `none` meaning the
step did not converge), how warm-start data is produced from a converged step
(`onSucc`) and the reset value used after a failed step (`onFail`). -/
structure ContScheme (σ W : Type) where
  solve : ℚ → W → Option σ
  onSucc : σ → W
  onFail : W

/-- One iteration of the continuation loop body. -/
def contStep {σ W : Type} (c : ContScheme σ W) (acc : W × List σ) (t : ℚ) :
    W × List σ :=
  match c.solve t acc.1 with
  | some s => (c.onSucc s, acc.2 ++ [s])
  | none => (c.onFail, acc.2)

/-- The whole continuation loop, started from warm-start data `w0`. -/
def contFold {σ W : Type} (c : ContScheme σ W) (w0 : W) (ts : List ℚ) :
    W × List σ :=
  ts.foldl (contStep c) (w0, [])

/-- The outcome (`some` converged result or `none`) of each step of the
continuation loop, in order. -/
def contResults {σ W : Type} (c : ContScheme σ W) : W → List ℚ → List (Option σ)
  | _, [] => []
  | w, t :: ts =>
    match c.solve t w with
    | some s => some s :: contResults c (c.onSucc s) ts
    | none => none :: contResults c c.onFail ts

/-- The warm-start data that each step of the continuation loop receives, in
order. -/
def contWarms {σ W : Type} (c : ContScheme σ W) : W → List ℚ → List W
  | _, [] => []
  | w, t :: ts =>
    match c.solve t w with
    | some s => w :: contWarms c (c.onSucc s) ts
    | none => w :: contWarms c c.onFail ts

/-- The number of steps of the continuation loop that fail to converge. -/
def contFails {σ W : Type} (c : ContScheme σ W) : W → List ℚ → ℕ
  | _, [] => 0
  | w, t :: ts =>
    match c.solve t w with
    | some s => contFails c (c.onSucc s) ts
    | none => contFails c c.onFail ts + 1

/-- Warm-start data determined by a step outcome: scheme's success update on a
converged step, the reset value on a failed one. -/
def warmOf {σ W : Type} (c : ContScheme σ W) : Option σ → W
  | some s => c.onSucc s
  | none => c.onFail

/-- The most recent success in a list of step outcomes. -/
def lastSome {σ : Type} (l : List (Option σ)) : Option σ :=
  (l.filterMap id).getLast?

/-! ## `linspace`

`ndarray`'s `Array::linspace(a, b, n)`: `n` evenly spaced values from `a` to
`b` inclusive (`[a]` for `n = 1`, empty for `n = 0`). -/

/-- `Array::linspace` over `ℚ`. -/
def linspace (a b : ℚ) (n : ℕ) : List ℚ :=
  if n = 0 then []
  else if n = 1 then [a]
  else (List.range n).map (fun i : ℕ => a + (b - a) * (i : ℚ) / ((n : ℚ) - 1))

/-! ## `PhaseDiagram::pure` (phase_diagram_pure.rs, lines 25–54)

The critical point `sc` that the function computes first (line 37) is
abstracted as the given entry `scVle` (the diagram entry
`PhaseEquilibrium::from_states(sc, sc)`) together with its temperature `tc`;
the step solver `PhaseEquilibrium::pure` is abstracted as
`solve : ℚ → Option σ → Option σ` (argument order: temperature, previous
converged equilibrium). -/

/-- The continuation scheme of `PhaseDiagram::pure` and
`PhaseDiagramBinary::new_lle`: warm-start data is the previous step's result,
reset to `none` by `.ok()` after a failure. -/
def pureScheme {σ : Type} (solve : ℚ → Option σ → Option σ) :
    ContScheme σ (Option σ) :=
  ⟨solve, some, none⟩

/-- `max_temperature` of `PhaseDiagram::pure` (line 39–40):
`min_temperature + (sc.temperature - min_temperature) * ((npoints - 2) / (npoints - 1))`. -/
def pureTmax (tmin tc : ℚ) (npoints : ℕ) : ℚ :=
  tmin + (tc - tmin) * ((npoints - 2 : ℕ) : ℚ) / ((npoints - 1 : ℕ) : ℚ)

/-- `temperatures` of `PhaseDiagram::pure` (lines 41–42):
`linspace(0, 1, npoints - 1)` mapped affinely onto
`[min_temperature, max_temperature]`. -/
def pureTemperatures (tmin tc : ℚ) (npoints : ℕ) : List ℚ :=
  (linspace 0 1 (npoints - 1)).map
    (fun i => tmin + (pureTmax tmin tc npoints - tmin) * i)

/-- The state list built by `PhaseDiagram::pure` (lines 35–53): the
continuation loop over `temperatures` followed by the critical-point entry. -/
def phaseDiagramPure {σ : Type} (solve : ℚ → Option σ → Option σ) (scVle : σ)
    (tmin tc : ℚ) (npoints : ℕ) : List σ :=
  (contFold (pureScheme solve) none (pureTemperatures tmin tc npoints)).2 ++ [scVle]

/-! ## `PhaseDiagramBinary::new_lle` (phase_diagram_binary.rs, lines 240–275)

`tp_vec` is `linspace(min_tp, max_tp, npoints)`; the step solver
`PhaseEquilibrium::tp_flash` at the grid value (with `VLEOptions::default()`
and the fixed feed) is abstracted as `flash`. -/

/-- The state list built by `PhaseDiagramBinary::new_lle`. -/
def newLle {σ : Type} (flash : ℚ → Option σ → Option σ) (min_tp max_tp : ℚ)
    (npoints : ℕ) : List σ :=
  (contFold (pureScheme flash) none (linspace min_tp max_tp npoints)).2

/-! ## `iterate_vle` (phase_diagram_binary.rs, lines 308–365)

The warm-start data is the pair `(tp_old, y_old)`; `solve xi (tp_old, y_old)`
abstracts the `PhaseEquilibrium::bubble_dew_point_with_options` call at liquid
(resp. vapor) composition `(xi, 1 - xi)`.  `tpOf` abstracts the value stored
into `tp_old` from a converged step (the vapor pressure for a `Temperature`
spec, the vapor temperature for a `Pressure` spec) and `yOf` the composition
stored into `y_old`. -/

/-- The continuation scheme of the `iterate_vle` loop: on success the warm
start becomes `(Some tp, Some y)` of the new equilibrium, on failure both
components are reset to `None` (lines 355–358). -/
def ivScheme {σ γ : Type} (solve : ℚ → Option ℚ × Option γ → Option σ)
    (tpOf : σ → ℚ) (yOf : σ → γ) : ContScheme σ (Option ℚ × Option γ) :=
  ⟨solve, fun s => (some (tpOf s), some (yOf s)), (none, none)⟩

/-- The grid of compositions that the `iterate_vle` loop actually visits
(lines 323–328): `linspace(x_lim[0], x_lim[1], npoints)` without its first
point, and also without its last point when `vle_1` is given. -/
def ivGrid (x0 x1 : ℚ) (npoints : ℕ) (endGiven : Bool) : List ℚ :=
  if endGiven then ((linspace x0 x1 npoints).drop 1).dropLast
  else (linspace x0 x1 npoints).drop 1

/-- The state list built by `iterate_vle`: `vle_0`, then the loop results,
then `vle_1` when given. -/
def iterateVle {σ γ : Type} (solve : ℚ → Option ℚ × Option γ → Option σ)
    (tpOf : σ → ℚ) (yOf : σ → γ) (x0 x1 : ℚ) (vle0 : σ) (vle1 : Option σ)
    (npoints : ℕ) : List σ :=
  let xs := ivGrid x0 x1 npoints vle1.isSome
  vle0 ::
    (contFold (ivScheme solve tpOf yOf) (some (tpOf vle0), none) xs).2 ++
      (match vle1 with
       | some v1 => [v1]
       | none => [])

/-! ## `State::critical_point` (critical_point.rs, lines 85–110)

The inner Newton solver `critical_point_hkm` (for the already validated moles)
is abstracted as `hkm : ℚ → Except EosError S`, a function of its initial
temperature. -/

/-- `trial_temperatures` from `State::critical_point` (lines 95–99), in source
order: 300, 700, 500 reference temperature units. -/
def trial_temperatures : List ℚ := [300, 700, 500]

/-- The trial loop of `State::critical_point` (lines 103–109): return the
first convergent result, or `NotConverged` if every trial fails. -/
def firstOk {S : Type} (hkm : ℚ → Except EosError S) :
    List ℚ → Except EosError S
  | [] => .error (.NotConverged "Critical point")
  | t :: ts =>
    match hkm t with
    | .ok s => .ok s
    | .error _ => firstOk hkm ts

/-- `State::critical_point` for validated moles: use the supplied initial
temperature if there is one, otherwise run the trial loop. -/
def critical_point {S : Type} (hkm : ℚ → Except EosError S)
    (initial_temperature : Option ℚ) : Except EosError S :=
  match initial_temperature with
  | some t => hkm t
  | none => firstOk hkm trial_temperatures

/-! ## `State::critical_point_pure` (critical_point.rs, lines 21–39) -/

/-- `Iterator::collect::<EosResult<Vec<_>>>`: sequence a list of results,
short-circuiting at the first error. -/
def collectResults {E A : Type} : List (Except E A) → Except E (List A)
  | [] => .ok []
  | x :: xs =>
    match x with
    | .error e => .error e
    | .ok a =>
      match collectResults xs with
      | .error e => .error e
      | .ok as_ => .ok (a :: as_)

/-- `State::critical_point_pure`: map `State::critical_point` over the
single-component subsets `eos.subset(&[i])` for `i` in component order and
collect.  `subset1 i` abstracts `eos.subset(&[i])` and `hkm e` the inner
Newton solver on the subset EOS `e`. -/
def critical_point_pure {ε S : Type} (ncomp : ℕ) (subset1 : ℕ → ε)
    (hkm : ε → ℚ → Except EosError S) (initial_temperature : Option ℚ) :
    Except EosError (List S) :=
  collectResults
    ((List.range ncomp).map (fun i => critical_point (hkm (subset1 i)) initial_temperature))

/-! ## `State::critical_point_hkm` (critical_point.rs, lines 112–196)

The iteration state is the pair `(t, rho)` of reduced temperature and density.
The physics is abstracted by an oracle: `resNorm (t, rho)` is
`norm(res)`, the Euclidean norm of the residual vector
`critical_point_objective` evaluated at `(t, rho)` (real parts), and
`newton (t, rho)` is the raw Newton step `delta` obtained from the LU solve of
the dual-seeded Jacobian (lines 143–156).  The step damping, the step
application, the density floor and the convergence test (lines 158–196) are
embedded literally. -/

/-- The oracle for the critical-point Newton iteration: residual norm and raw
(undamped) Newton step at a `(temperature, density)` point. -/
structure HkmOracle where
  resNorm : ℚ × ℚ → ℚ
  newton : ℚ × ℚ → ℚ × ℚ

/-- Step damping of `critical_point_hkm` (lines 158–164): if the temperature
component exceeds 25% of the current temperature in magnitude, the whole step
is scaled down to make it exactly 25%; then the same with the density
component and 3% of the maximum density. -/
def dampStep (t max_density : ℚ) (delta : ℚ × ℚ) : ℚ × ℚ :=
  let d1 :=
    if |delta.1| > 1/4 * t then
      (1/4 * t / |delta.1| * delta.1, 1/4 * t / |delta.1| * delta.2)
    else delta
  if |d1.2| > 3/100 * max_density then
    (3/100 * max_density / |d1.2| * d1.1, 3/100 * max_density / |d1.2| * d1.2)
  else d1

/-- One full iteration of `critical_point_hkm` (lines 158–169): damp the raw
Newton step, subtract it, and floor the density at `1e-4` times the maximum
density. -/
def hkmIter (F : HkmOracle) (max_density : ℚ) (x : ℚ × ℚ) : ℚ × ℚ :=
  let delta := dampStep x.1 max_density (F.newton x)
  (x.1 - delta.1, max (x.2 - delta.2) (1/10000 * max_density))

/-- The Newton loop of `critical_point_hkm` (lines 143–195), by remaining
iteration budget: in each round, step first, then test the residual norm at
the pre-step point and return the post-step state on success (the source
computes `res` before stepping and checks `norm(&res) < tol` after the step is
applied); `NotConverged` once the budget is exhausted. -/
def hkmLoop (F : HkmOracle) (max_density tol : ℚ) :
    ℕ → ℚ × ℚ → Except EosError (ℚ × ℚ)
  | 0, _ => .error (.NotConverged "Critical point")
  | n + 1, x =>
    let x' := hkmIter F max_density x
    if F.resNorm x < tol then .ok x'
    else hkmLoop F max_density tol n x'

/-- The iterate sequence of the (total) damped Newton update. -/
def hkmTraj (F : HkmOracle) (max_density : ℚ) (x0 : ℚ × ℚ) (i : ℕ) : ℚ × ℚ :=
  (hkmIter F max_density)^[i] x0

/-- `State::critical_point_hkm` (lines 112–196): resolve the solver options
against the defaults, start from `rho = 0.3 * max_density` and the given
initial temperature, and run the Newton loop. -/
def critical_point_hkm (F : HkmOracle) (max_density t0 : ℚ)
    (options : SolverOptions) : Except EosError (ℚ × ℚ) :=
  let mt := options.unwrap_or MAX_ITER_CRIT_POINT TOL_CRIT_POINT
  hkmLoop F max_density mt.2 mt.1 (t0, 3/10 * max_density)

/-! ## `State::critical_point_binary` and `CritOp` (critical_point.rs,
lines 65–82 and 239–275)

`TPSpec` is the given-temperature/given-pressure specification; the critical
state produced by the inner solver is observed through its reduced temperature
and pressure.  The inner full critical-point computation
`State::critical_point(eos, Some(moles), None, opts)` is abstracted as
`crit : ℚ × ℚ → SolverOptions → Except EosError CritState`, a function of the
mole-number pair and the solver options it is invoked with; the Brent
executor of the `argmin` crate is abstracted as `brent`, a function of the
bracket bounds, the tolerance, the iteration budget, the initial parameter
and the cost function. -/

/-- `TPSpec` from `src/state` (reduced values). -/
inductive TPSpec where
  | temperature (t : ℚ)
  | pressure (p : ℚ)
deriving DecidableEq, Repr

/-- The observable part of the critical `State` returned by the inner solver:
its reduced temperature and its reduced total pressure. -/
structure CritState where
  temperature : ℚ
  pressure : ℚ
deriving DecidableEq, Repr

/-- `CritOp::apply` (lines 263–274): build the composition `(x, 1 - x)`, run
the full critical-point calculation with `SolverOptions::default()`, and
return the signed difference between the critical state's pressure (resp.
temperature) and the target. -/
def critOpApply (crit : ℚ × ℚ → SolverOptions → Except EosError CritState)
    (tp : TPSpec) (x : ℚ) : Except EosError ℚ :=
  match crit (x, 1 - x) SolverOptions.default with
  | .error e => .error e
  | .ok state =>
    match tp with
    | .pressure p => .ok (state.pressure - p)
    | .temperature t => .ok (state.temperature - t)

/-- The Brent bracket bounds of `critical_point_binary` (line 73):
`Brent::new(1e-10, 1.0 - 1e-10, tol)`. -/
def brent_bounds : ℚ × ℚ := (1 / 10000000000, 1 - 1 / 10000000000)

/-- `State::critical_point_binary` (lines 65–82): run the Brent executor on
`CritOp` over the bracket `brent_bounds` with the caller's tolerance and
iteration budget (defaulted) and initial parameter `0.5`, then compute the
critical point at the resulting composition with `SolverOptions::default()`. -/
def critical_point_binary
    (brent : ℚ × ℚ → ℚ → ℕ → ℚ → (ℚ → Except EosError ℚ) → Except EosError ℚ)
    (crit : ℚ × ℚ → SolverOptions → Except EosError CritState) (tp : TPSpec)
    (options : SolverOptions) : Except EosError CritState :=
  match brent brent_bounds (options.tol.getD TOL_CRIT_POINT)
      (options.max_iter.getD MAX_ITER_CRIT_POINT) (1/2) (critOpApply crit tp) with
  | .error e => .error e
  | .ok x => crit (x, 1 - x) SolverOptions.default

/-! ## `PhaseEquilibrium::heteroazeotrope_t` (phase_diagram_binary.rs,
lines 535–682)

The iteration state is the triple of per-component partial-density pairs of
the two liquids and the vapor (temperature is a fixed parameter).  The physics
is abstracted by an oracle: `resNorm s` is `norm(&res)` of the stacked
residual (chemical-potential and pressure differences, lines 602–609) and
`dx s` the solution of the LU-decomposed Jacobian system (lines 616–643).
Residual test, Newton update, the sign check on the updated densities and the
rebuild of the three states (lines 611–677) are embedded literally; the state
rebuild through `StateBuilder` is the identity on the density data. -/

/-- The density data of the three phases in `heteroazeotrope_t`. -/
structure HetT where
  l1 : ℚ × ℚ
  l2 : ℚ × ℚ
  v : ℚ × ℚ
deriving DecidableEq, Repr

/-- Oracle for `heteroazeotrope_t`: residual norm and LU-solved Newton step. -/
structure HetTOracle where
  resNorm : HetT → ℚ
  dx : HetT → HetT

/-- The updated densities of one `heteroazeotrope_t` Newton step
(lines 645–651): current densities minus the corresponding `dx` slices. -/
def hetTCand (F : HetTOracle) (s : HetT) : HetT :=
  let d := F.dx s
  ⟨(s.l1.1 - d.l1.1, s.l1.2 - d.l1.2), (s.l2.1 - d.l2.1, s.l2.2 - d.l2.2),
    (s.v.1 - d.v.1, s.v.2 - d.v.2)⟩

/-- The sign check of `heteroazeotrope_t` (lines 653–663): some updated
per-component density is negative (`f64::is_sign_negative`). -/
def hetTNeg (s : HetT) : Prop :=
  s.l1.1 < 0 ∨ s.l1.2 < 0 ∨ s.l2.1 < 0 ∨ s.l2.2 < 0 ∨ s.v.1 < 0 ∨ s.v.2 < 0

instance (s : HetT) : Decidable (hetTNeg s) := by
  unfold hetTNeg
  infer_instance

/-- One Newton update of `heteroazeotrope_t`: compute the updated densities,
reject them with `IterationFailed` if any is negative, otherwise rebuild the
states from them. -/
def hetTStep (F : HetTOracle) (s : HetT) : Except EosError HetT :=
  let s' := hetTCand F s
  if hetTNeg s' then .error (.IterationFailed "PhaseEquilibrium::heteroazeotrope_t")
  else .ok s'

/-- The iteration loop of `heteroazeotrope_t` (lines 569–681), by remaining
budget: test the residual at the current state first, then step. -/
def hetTLoop (F : HetTOracle) (tol : ℚ) : ℕ → HetT → Except EosError HetT
  | 0, _ => .error (.NotConverged "PhaseEquilibrium::heteroazeotrope_t")
  | n + 1, s =>
    if F.resNorm s < tol then .ok s
    else
      match hetTStep F s with
      | .error e => .error e
      | .ok s' => hetTLoop F tol n s'

/-- The iterate sequence of the (total, unrejected) `heteroazeotrope_t`
Newton update. -/
def hetTTraj (F : HetTOracle) (s0 : HetT) (i : ℕ) : HetT :=
  (hetTCand F)^[i] s0

/-- `PhaseEquilibrium::heteroazeotrope_t` after its bubble-point
initialization (abstracted as the given start state `s0`): resolve the solver
options against `MAX_ITER_HETERO` and `TOL_HETERO` and run the loop. -/
def heteroazeotrope_t (F : HetTOracle) (options : SolverOptions) (s0 : HetT) :
    Except EosError HetT :=
  hetTLoop F (options.tol.getD TOL_HETERO) (options.max_iter.getD MAX_ITER_HETERO) s0

/-! ## `PhaseEquilibrium::heteroazeotrope_p` (phase_diagram_binary.rs,
lines 686–847)

Same shape with the temperature as a seventh unknown: the residual uses the
fixed external pressure, the `dx` vector has a temperature component
(line 815), and the sign check also covers the updated temperature
(lines 818–828).  Both error strings name `heteroazeotrope_t`, as in the
source. -/

/-- The density data of the three phases plus the temperature in
`heteroazeotrope_p`. -/
structure HetP where
  l1 : ℚ × ℚ
  l2 : ℚ × ℚ
  v : ℚ × ℚ
  t : ℚ
deriving DecidableEq, Repr

/-- Oracle for `heteroazeotrope_p`: residual norm and LU-solved Newton step
(including the temperature component). -/
structure HetPOracle where
  resNorm : HetP → ℚ
  dx : HetP → HetP

/-- The updated densities and temperature of one `heteroazeotrope_p` Newton
step (lines 808–815). -/
def hetPCand (F : HetPOracle) (s : HetP) : HetP :=
  let d := F.dx s
  ⟨(s.l1.1 - d.l1.1, s.l1.2 - d.l1.2), (s.l2.1 - d.l2.1, s.l2.2 - d.l2.2),
    (s.v.1 - d.v.1, s.v.2 - d.v.2), s.t - d.t⟩

/-- The sign check of `heteroazeotrope_p` (lines 817–828): some updated
per-component density, or the updated temperature, is negative. -/
def hetPNeg (s : HetP) : Prop :=
  s.l1.1 < 0 ∨ s.l1.2 < 0 ∨ s.l2.1 < 0 ∨ s.l2.2 < 0 ∨ s.v.1 < 0 ∨ s.v.2 < 0 ∨
    s.t < 0

instance (s : HetP) : Decidable (hetPNeg s) := by
  unfold hetPNeg
  infer_instance

/-- One Newton update of `heteroazeotrope_p`. -/
def hetPStep (F : HetPOracle) (s : HetP) : Except EosError HetP :=
  let s' := hetPCand F s
  if hetPNeg s' then .error (.IterationFailed "PhaseEquilibrium::heteroazeotrope_t")
  else .ok s'

/-- The iteration loop of `heteroazeotrope_p` (lines 708–846). -/
def hetPLoop (F : HetPOracle) (tol : ℚ) : ℕ → HetP → Except EosError HetP
  | 0, _ => .error (.NotConverged "PhaseEquilibrium::heteroazeotrope_t")
  | n + 1, s =>
    if F.resNorm s < tol then .ok s
    else
      match hetPStep F s with
      | .error e => .error e
      | .ok s' => hetPLoop F tol n s'

/-- The iterate sequence of the (total, unrejected) `heteroazeotrope_p`
Newton update. -/
def hetPTraj (F : HetPOracle) (s0 : HetP) (i : ℕ) : HetP :=
  (hetPCand F)^[i] s0

/-- `PhaseEquilibrium::heteroazeotrope_p` after its bubble-point
initialization. -/
def heteroazeotrope_p (F : HetPOracle) (options : SolverOptions) (s0 : HetP) :
    Except EosError HetP :=
  hetPLoop F (options.tol.getD TOL_HETERO) (options.max_iter.getD MAX_ITER_HETERO) s0

/-! ## `PhaseDiagramBinary::new_vlle` and `new_vle` (phase_diagram_binary.rs,
lines 75–182)

`vle_sat` is the (already swapped, lines 88–89) pair of pure-component
saturation equilibria (`None` meaning the component is supercritical at the
specification).  The inner binary-critical-point computation of the
one-component-supercritical branches (lines 113, 118) is abstracted as
`cpb : Except EosError (ℚ × σ)` returning the critical composition
`cp.molefracs[0]` and the diagram entry built from the critical state. -/

/-- `PhaseDiagramBinary::new_vlle` (lines 142–182): two bubble-point VLE
branches from the pure components up to the given liquid compositions;
`SuperCritical` unless both pure components have a saturation state. -/
def new_vlle {σ γ : Type} (solve : ℚ → Option ℚ × Option γ → Option σ)
    (tpOf : σ → ℚ) (yOf : σ → γ) (npoints : ℕ) (x_lle : ℚ × ℚ)
    (vle_sat : Option σ × Option σ) : Except EosError (List σ × List σ) :=
  match vle_sat with
  | (some vle2, some vle1) =>
    .ok (iterateVle solve tpOf yOf 0 x_lle.1 vle2 none (npoints / 2),
      iterateVle solve tpOf yOf 1 x_lle.2 vle1 none (npoints - npoints / 2))
  | _ => .error .SuperCritical

/-- `PhaseDiagramBinary::new_vle` (lines 75–139).  `sat` is the unswapped
`PhaseEquilibrium::vle_pure_comps(eos, tp)` result `[vle_sat[0], vle_sat[1]]`;
the function swaps it (line 89) and dispatches on the `x_lle` argument and on
which components have a saturation state. -/
def new_vle {σ γ : Type} (solve : ℚ → Option ℚ × Option γ → Option σ)
    (tpOf : σ → ℚ) (yOf : σ → γ) (cpb : Except EosError (ℚ × σ)) (tp : TPSpec)
    (npointsOpt : Option ℕ) (x_lle : Option (ℚ × ℚ))
    (sat : Option σ × Option σ) : Except EosError (List σ) :=
  let npoints := npointsOpt.getD DEFAULT_POINTS
  let vle_sat := (sat.2, sat.1)
  match x_lle with
  | some xl =>
    match new_vlle solve tpOf yOf npoints xl vle_sat with
    | .error e => .error e
    | .ok (states1, states2) => .ok (states1 ++ states2.reverse)
  | none =>
    let bubble : Bool :=
      match tp with
      | .temperature _ => true
      | .pressure _ => false
    match vle_sat with
    | (none, none) => .error .SuperCritical
    | (some vle2, none) =>
      match cpb with
      | .error e => .error e
      | .ok cp =>
        let states := iterateVle solve tpOf yOf 0 cp.1 vle2 (some cp.2) npoints
        .ok (if bubble then states else states.reverse)
    | (none, some vle1) =>
      match cpb with
      | .error e => .error e
      | .ok cp =>
        let states := iterateVle solve tpOf yOf 1 cp.1 vle1 (some cp.2) npoints
        .ok (if bubble then states else states.reverse)
    | (some vle2, some vle1) =>
      .ok (iterateVle solve tpOf yOf 0 1 vle2 (some vle1) npoints)

/-! ## Lemmas about the continuation loop -/

lemma contFold_go {σ W : Type} (c : ContScheme σ W) (ts : List ℚ) :
    ∀ (w : W) (acc : List σ),
      (ts.foldl (contStep c) (w, acc)).2 = acc ++ (contResults c w ts).filterMap id := by
  induction ts with
  | nil => intro w acc; simp [contResults]
  | cons t ts ih =>
    intro w acc
    simp only [List.foldl_cons, contResults]
    cases h : c.solve t w with
    | some s => simp [contStep, h, ih]
    | none => simp [contStep, h, ih]

lemma contFold_eq_filterMap {σ W : Type} (c : ContScheme σ W) (w0 : W)
    (ts : List ℚ) :
    (contFold c w0 ts).2 = (contResults c w0 ts).filterMap id := by
  simpa using contFold_go c ts w0 []

lemma contFold_length {σ W : Type} (c : ContScheme σ W) (w0 : W) (ts : List ℚ) :
    (contFold c w0 ts).2.length + contFails c w0 ts = ts.length := by
  rw [contFold_eq_filterMap]
  induction ts generalizing w0 with
  | nil => simp [contResults, contFails]
  | cons t ts ih =>
    simp only [contResults, contFails]
    cases h : c.solve t w0 with
    | some s =>
      simp only [h, List.filterMap_cons, id, List.length_cons]
      have := ih (c.onSucc s)
      omega
    | none =>
      simp only [h, List.filterMap_cons, id, List.length_cons]
      have := ih c.onFail
      omega

lemma contWarms_getD {σ W : Type} (c : ContScheme σ W) (ts : List ℚ) :
    ∀ (w : W) (i : ℕ), i + 1 < ts.length →
      (contWarms c w ts).getD (i + 1) c.onFail =
        warmOf c ((contResults c w ts).getD i none) := by
  induction ts with
  | nil => intro w i h; simp at h
  | cons t ts ih =>
    intro w i h
    have hlen : ts.length ≠ 0 := by
      simp only [List.length_cons] at h
      omega
    cases h0 : c.solve t w with
    | some s =>
      cases i with
      | zero =>
        cases ts with
        | nil => exact absurd rfl hlen
        | cons t2 ts2 =>
          simp only [contWarms, contResults, h0, warmOf]
          cases h2 : c.solve t2 (c.onSucc s) <;>
            simp [contWarms, contResults, h0, h2, warmOf]
      | succ j =>
        have := ih (c.onSucc s) j (by simp only [List.length_cons] at h; omega)
        simpa [contWarms, contResults, h0] using this
    | none =>
      cases i with
      | zero =>
        cases ts with
        | nil => exact absurd rfl hlen
        | cons t2 ts2 =>
          simp only [contWarms, contResults, h0, warmOf]
          cases h2 : c.solve t2 c.onFail <;>
            simp [contWarms, contResults, h0, h2, warmOf]
      | succ j =>
        have := ih c.onFail j (by simp only [List.length_cons] at h; omega)
        simpa [contWarms, contResults, h0] using this

lemma contResults_ctrl_sublist {σ W : Type} (c : ContScheme σ W)
    (ctrl : σ → ℚ) (hctrl : ∀ t w s, c.solve t w = some s → ctrl s = t)
    (ts : List ℚ) :
    ∀ w : W, (((contResults c w ts).filterMap id).map ctrl).Sublist ts := by
  induction ts with
  | nil => intro w; simp [contResults]
  | cons t ts ih =>
    intro w
    cases h : c.solve t w with
    | some s =>
      simp only [contResults, h, List.filterMap_cons, id, List.map_cons]
      rw [hctrl t w s h]
      exact (ih (c.onSucc s)).cons₂ t
    | none =>
      simp only [contResults, h, List.filterMap_cons, id]
      exact (ih c.onFail).cons t

lemma contFold_ctrl_sublist {σ W : Type} (c : ContScheme σ W) (ctrl : σ → ℚ)
    (hctrl : ∀ t w s, c.solve t w = some s → ctrl s = t) (w0 : W)
    (ts : List ℚ) : (((contFold c w0 ts).2).map ctrl).Sublist ts := by
  rw [contFold_eq_filterMap]
  exact contResults_ctrl_sublist c ctrl hctrl ts w0

/-! ## Lemmas about `linspace` -/

lemma linspace_map_form (a b : ℚ) (m : ℕ) :
    linspace a b (m + 2) =
      (List.range (m + 2)).map
        (fun i : ℕ => a + (b - a) * i / (((m + 2 : ℕ) : ℚ) - 1)) := by
  unfold linspace
  rw [if_neg (by omega), if_neg (by omega)]

lemma linspace_succ_succ (a b : ℚ) (m : ℕ) :
    linspace a b (m + 2) =
      a :: ((List.range' 1 m).map (fun i : ℕ => a + (b - a) * i / ((m : ℚ) + 1))
        ++ [b]) := by
  have hm : ((m : ℚ) + 1) ≠ 0 := by positivity
  rw [linspace_map_form]
  have hfg : (fun i : ℕ => a + (b - a) * i / (((m + 2 : ℕ) : ℚ) - 1)) =
      fun i : ℕ => a + (b - a) * i / ((m : ℚ) + 1) := by
    funext i
    have : (((m + 2 : ℕ) : ℚ) - 1) = (m : ℚ) + 1 := by push_cast; ring
    rw [this]
  have h0 : a + (b - a) * ((0 : ℕ) : ℚ) / ((m : ℚ) + 1) = a := by
    push_cast
    ring
  have hb : a + (b - a) * ((1 + 1 * m : ℕ) : ℚ) / ((m : ℚ) + 1) = b := by
    have hc : ((1 + 1 * m : ℕ) : ℚ) = (m : ℚ) + 1 := by push_cast; ring
    rw [hc, mul_div_assoc, div_self hm, mul_one]
    ring
  rw [hfg, List.range_eq_range', List.range'_succ, List.range'_concat]
  simp only [zero_add, List.map_cons, List.map_append, List.map_singleton,
    List.map_nil]
  rw [h0, hb]

lemma linspace_length (a b : ℚ) (n : ℕ) : (linspace a b n).length = n := by
  match n with
  | 0 => rfl
  | 1 => rfl
  | m + 2 =>
    rw [linspace_succ_succ]
    simp

lemma linspace_head (a b : ℚ) (n : ℕ) (h : 1 ≤ n) :
    linspace a b n = a :: (linspace a b n).drop 1 := by
  match n with
  | 1 => rfl
  | m + 2 =>
    rw [linspace_succ_succ]
    rfl

lemma linspace_pairwise_lt (a b : ℚ) (n : ℕ) (hab : a < b) :
    List.Pairwise (· < ·) (linspace a b n) := by
  match n with
  | 0 => simp [linspace]
  | 1 => simp [linspace]
  | m + 2 =>
    rw [linspace_map_form, List.pairwise_map]
    refine (List.pairwise_lt_range _).imp ?_
    intro i j hij
    have hd : (0 : ℚ) < ((m + 2 : ℕ) : ℚ) - 1 := by
      push_cast
      have : (0 : ℚ) ≤ (m : ℚ) := Nat.cast_nonneg m
      linarith
    have hij' : (i : ℚ) < (j : ℚ) := by exact_mod_cast hij
    have h1 : (b - a) * i < (b - a) * j :=
      mul_lt_mul_of_pos_left hij' (by linarith)
    have h2 : (b - a) * i / (((m + 2 : ℕ) : ℚ) - 1) <
        (b - a) * j / (((m + 2 : ℕ) : ℚ) - 1) :=
      div_lt_div_of_pos_right h1 hd
    linarith

lemma linspace_pairwise_gt (a b : ℚ) (n : ℕ) (hab : b < a) :
    List.Pairwise (· > ·) (linspace a b n) := by
  match n with
  | 0 => simp [linspace]
  | 1 => simp [linspace]
  | m + 2 =>
    rw [linspace_map_form, List.pairwise_map]
    refine (List.pairwise_lt_range _).imp ?_
    intro i j hij
    have hd : (0 : ℚ) < ((m + 2 : ℕ) : ℚ) - 1 := by
      push_cast
      have : (0 : ℚ) ≤ (m : ℚ) := Nat.cast_nonneg m
      linarith
    have hij' : (i : ℚ) < (j : ℚ) := by exact_mod_cast hij
    have h1 : (b - a) * j < (b - a) * i := by nlinarith
    have h2 : (b - a) * j / (((m + 2 : ℕ) : ℚ) - 1) <
        (b - a) * i / (((m + 2 : ℕ) : ℚ) - 1) :=
      div_lt_div_of_pos_right h1 hd
    show _ < _
    linarith

lemma linspace_mem_bounds (a b : ℚ) (n : ℕ) (hab : a ≤ b) :
    ∀ y ∈ linspace a b n, a ≤ y ∧ y ≤ b := by
  match n with
  | 0 => simp [linspace]
  | 1 =>
    intro y hy
    simp [linspace] at hy
    exact ⟨le_of_eq hy.symm, hy ▸ hab⟩
  | m + 2 =>
    intro y hy
    rw [linspace_map_form] at hy
    simp only [List.mem_map, List.mem_range] at hy
    obtain ⟨i, hi, rfl⟩ := hy
    have hd : (0 : ℚ) < ((m + 2 : ℕ) : ℚ) - 1 := by
      push_cast
      have : (0 : ℚ) ≤ (m : ℚ) := Nat.cast_nonneg m
      linarith
    constructor
    · have hnum : (0 : ℚ) ≤ (b - a) * i := by
        have : (0 : ℚ) ≤ (i : ℚ) := Nat.cast_nonneg i
        nlinarith
      have : 0 ≤ (b - a) * i / (((m + 2 : ℕ) : ℚ) - 1) := by positivity
      linarith
    · have hineq : (i : ℚ) ≤ ((m + 2 : ℕ) : ℚ) - 1 := by
        have : (i : ℚ) ≤ ((m : ℚ) + 1) := by exact_mod_cast Nat.lt_succ_iff.mp hi
        push_cast
        linarith
      have h1 : (b - a) * i ≤ (b - a) * (((m + 2 : ℕ) : ℚ) - 1) :=
        mul_le_mul_of_nonneg_left hineq (by linarith)
      have h2 : (b - a) * i / (((m + 2 : ℕ) : ℚ) - 1) ≤ b - a := by
        rw [div_le_iff₀ hd]
        linarith
      linarith

lemma ivGrid_some (a b : ℚ) (m : ℕ) :
    ivGrid a b (m + 2) true =
      (List.range' 1 m).map (fun i : ℕ => a + (b - a) * i / ((m : ℚ) + 1)) := by
  unfold ivGrid
  rw [linspace_succ_succ]
  simp [List.dropLast_concat]

lemma ivGrid_none (a b : ℚ) (m : ℕ) :
    ivGrid a b (m + 2) false =
      (List.range' 1 m).map (fun i : ℕ => a + (b - a) * i / ((m : ℚ) + 1))
        ++ [b] := by
  unfold ivGrid
  rw [linspace_succ_succ]
  simp

/-! ## Claim C1 -/

/-- A step solver used to exercise the continuation loop on concrete data:
succeeds at control value 1, fails at 2, and at 3 reports the warm start it
received (`w + 1` for warm start `w`, `0` for a `None` warm start). -/
def c1solve (t : ℚ) (w : Option ℕ) : Option ℕ :=
  if t = 1 then some 11
  else if t = 2 then none
  else if t = 3 then
    match w with
    | some v => some (v + 1)
    | none => some 0
  else none

/-- C1, as stated, is false: the claim asserts that every step of the
continuation loops is warm-started from the most recent successfully converged
step, with a `None` warm start only if no prior step ever succeeded.  In the
run of the `PhaseDiagram::pure`/`new_lle` loop over control values `[1, 2, 3]`
with `c1solve`, step 0 converges, step 1 fails, and step 2 is then
warm-started from `None` although step 0 succeeded. -/
theorem claim_C1_counterexample :
    ¬ (∀ i : ℕ, i < 3 →
        (contWarms (pureScheme c1solve) none [1, 2, 3]).getD i none =
          lastSome ((contResults (pureScheme c1solve) none [1, 2, 3]).take i)) := by
  decide

/-- C1 (amended): in pure-component diagrams, binary VLE branches
(`iterate_vle`) and LLE diagrams (`new_lle`), a step that fails to converge is
dropped from the output list, and every subsequent step is warm-started from
the outcome of the immediately preceding step: the converged result if that
step succeeded, and the reset (`None`) warm start whenever the immediately
preceding step failed — not the most recent success overall.  Conjunct 1 is
the warm-start law for the shared continuation loop; conjunct 2 states that
the output collects exactly the successful outcomes in order; conjuncts 3–5
instantiate this for `PhaseDiagram::pure`, `PhaseDiagramBinary::new_lle` and
`iterate_vle`. -/
theorem claim_C1_amended :
    (∀ (σ W : Type) (c : ContScheme σ W) (w0 : W) (ts : List ℚ) (i : ℕ),
        i + 1 < ts.length →
        (contWarms c w0 ts).getD (i + 1) c.onFail =
          warmOf c ((contResults c w0 ts).getD i none)) ∧
    (∀ (σ W : Type) (c : ContScheme σ W) (w0 : W) (ts : List ℚ),
        (contFold c w0 ts).2 = (contResults c w0 ts).filterMap id) ∧
    (∀ (σ : Type) (solve : ℚ → Option σ → Option σ) (scVle : σ)
        (tmin tc : ℚ) (np : ℕ),
        phaseDiagramPure solve scVle tmin tc np =
          (contResults (pureScheme solve) none
            (pureTemperatures tmin tc np)).filterMap id ++ [scVle]) ∧
    (∀ (σ : Type) (flash : ℚ → Option σ → Option σ) (a b : ℚ) (np : ℕ),
        newLle flash a b np =
          (contResults (pureScheme flash) none (linspace a b np)).filterMap id) ∧
    (∀ (σ γ : Type) (solve : ℚ → Option ℚ × Option γ → Option σ)
        (tpOf : σ → ℚ) (yOf : σ → γ) (x0 x1 : ℚ) (vle0 : σ) (vle1 : Option σ)
        (np : ℕ),
        iterateVle solve tpOf yOf x0 x1 vle0 vle1 np =
          vle0 ::
            ((contResults (ivScheme solve tpOf yOf) (some (tpOf vle0), none)
              (ivGrid x0 x1 np vle1.isSome)).filterMap id ++
              (match vle1 with
               | some v1 => [v1]
               | none => []))) := by
  refine ⟨?_, ?_, ?_, ?_, ?_⟩
  · intro σ W c w0 ts i h
    exact contWarms_getD c ts w0 i h
  · intro σ W c w0 ts
    exact contFold_eq_filterMap c w0 ts
  · intro σ solve scVle tmin tc np
    unfold phaseDiagramPure
    rw [contFold_eq_filterMap]
  · intro σ flash a b np
    unfold newLle
    rw [contFold_eq_filterMap]
  · intro σ γ solve tpOf yOf x0 x1 vle0 vle1 np
    unfold iterateVle
    simp only []
    rw [contFold_eq_filterMap]
    simp

/-- A trivial always-succeeding step solver for the C1 witness. -/
def c1wsolve : ℚ → Option ℕ → Option ℕ := fun _ _ => some 5

/-- Witness for C1 (amended) at the concrete run over `[1, 2]`. -/
theorem claim_C1_witness :
    (0 + 1 < ([1, 2] : List ℚ).length) ∧
      (contWarms (pureScheme c1wsolve) none [1, 2]).getD (0 + 1)
          (pureScheme c1wsolve).onFail =
        warmOf (pureScheme c1wsolve)
          ((contResults (pureScheme c1wsolve) none [1, 2]).getD 0 none) :=
  ⟨by decide,
    claim_C1_amended.1 ℕ (Option ℕ) (pureScheme c1wsolve) none [1, 2] 0 (by decide)⟩

/-! ## Lemmas about the `PhaseDiagram::pure` temperature grid -/

lemma pureTemperatures_eq (tmin tc : ℚ) (np : ℕ) (h : 2 ≤ np) :
    pureTemperatures tmin tc np =
      linspace tmin (pureTmax tmin tc np) (np - 1) := by
  rcases Nat.lt_or_ge np 3 with h3 | h3
  · have hnp : np = 2 := by omega
    subst hnp
    simp [pureTemperatures, linspace]
  · obtain ⟨m, hm⟩ : ∃ m, np - 1 = m + 2 := ⟨np - 3, by omega⟩
    unfold pureTemperatures
    rw [hm, linspace_map_form, linspace_map_form, List.map_map]
    refine List.map_congr_left ?_
    intro i _
    simp only [Function.comp]
    ring

lemma pureTmax_bounds (tmin tc : ℚ) (np : ℕ) (h : 2 ≤ np) (hlt : tmin < tc) :
    tmin ≤ pureTmax tmin tc np ∧ pureTmax tmin tc np < tc := by
  unfold pureTmax
  have hB1 : (1 : ℚ) ≤ ((np - 1 : ℕ) : ℚ) := by
    have : 1 ≤ np - 1 := by omega
    exact_mod_cast this
  have hB : (0 : ℚ) < ((np - 1 : ℕ) : ℚ) := by linarith
  have hA : (0 : ℚ) ≤ ((np - 2 : ℕ) : ℚ) := Nat.cast_nonneg _
  have hAB : ((np - 2 : ℕ) : ℚ) = ((np - 1 : ℕ) : ℚ) - 1 := by
    have : np - 2 + 1 = np - 1 := by omega
    have hcast : (((np - 2) + 1 : ℕ) : ℚ) = ((np - 1 : ℕ) : ℚ) := by
      exact_mod_cast congrArg (Nat.cast : ℕ → ℚ) this
    push_cast at hcast
    linarith
  constructor
  · have : 0 ≤ (tc - tmin) * ((np - 2 : ℕ) : ℚ) / ((np - 1 : ℕ) : ℚ) := by
      apply div_nonneg _ (le_of_lt hB)
      have : (0 : ℚ) ≤ tc - tmin := by linarith
      exact mul_nonneg this hA
    linarith
  · have hlt1 : ((np - 2 : ℕ) : ℚ) / ((np - 1 : ℕ) : ℚ) < 1 := by
      rw [div_lt_one hB]
      linarith
    have h2 : (tc - tmin) * (((np - 2 : ℕ) : ℚ) / ((np - 1 : ℕ) : ℚ)) <
        (tc - tmin) * 1 :=
      mul_lt_mul_of_pos_left hlt1 (by linarith)
    rw [mul_div_assoc]
    linarith

lemma pureTmax_gt (tmin tc : ℚ) (np : ℕ) (h : 3 ≤ np) (hlt : tmin < tc) :
    tmin < pureTmax tmin tc np := by
  unfold pureTmax
  have hB : (0 : ℚ) < ((np - 1 : ℕ) : ℚ) := by
    have : 1 ≤ np - 1 := by omega
    have := (Nat.one_le_cast (α := ℚ)).mpr this
    linarith
  have hA : (1 : ℚ) ≤ ((np - 2 : ℕ) : ℚ) := by
    have : 1 ≤ np - 2 := by omega
    exact_mod_cast this
  have : 0 < (tc - tmin) * ((np - 2 : ℕ) : ℚ) / ((np - 1 : ℕ) : ℚ) := by
    apply div_pos _ hB
    have : (0 : ℚ) < tc - tmin := by linarith
    nlinarith
  linarith

lemma ivGrid_length_some (a b : ℚ) (np : ℕ) :
    (ivGrid a b np true).length = np - 2 := by
  unfold ivGrid
  simp [linspace_length]
  omega

lemma ivGrid_length_none (a b : ℚ) (np : ℕ) :
    (ivGrid a b np false).length = np - 1 := by
  unfold ivGrid
  simp [linspace_length]

lemma linspace_one (a b : ℚ) : linspace a b 1 = [a] := rfl

/-! ## Claim C2 -/

/-- C2: for every requested point count `npoints` (at least 2, with a
subcritical start in the pure case), each phase-diagram continuation
constructor produces a list whose length plus the number of failed steps
equals `npoints`, and the control variable of successive entries is monotone.
`ctrl` reads the control variable off an entry; the hypotheses say that the
abstracted step solvers return equilibria at the requested control value, as
the bubble-point/flash solvers do.  Conjunct 1 is `PhaseDiagram::pure`
(control variable: temperature, strictly increasing up to the critical entry),
conjunct 2 is `PhaseDiagramBinary::new_lle` (control variable: the
temperature/pressure grid value, monotone in the direction of the grid),
conjunct 3 is `iterate_vle` (control variable: composition, monotone from the
first pure component towards the other end). -/
theorem claim_C2 :
    (∀ (σ : Type) (solve : ℚ → Option σ → Option σ) (ctrl : σ → ℚ) (scVle : σ)
        (tmin tc : ℚ) (np : ℕ),
        2 ≤ np → tmin < tc →
        (∀ t w s, solve t w = some s → ctrl s = t) → ctrl scVle = tc →
        (phaseDiagramPure solve scVle tmin tc np).length +
            contFails (pureScheme solve) none (pureTemperatures tmin tc np) =
            np ∧
          List.Pairwise (· < ·)
            ((phaseDiagramPure solve scVle tmin tc np).map ctrl)) ∧
    (∀ (σ : Type) (flash : ℚ → Option σ → Option σ) (ctrl : σ → ℚ)
        (a b : ℚ) (np : ℕ),
        (∀ t w s, flash t w = some s → ctrl s = t) →
        (newLle flash a b np).length +
            contFails (pureScheme flash) none (linspace a b np) = np ∧
          (a < b →
            List.Pairwise (· < ·) ((newLle flash a b np).map ctrl)) ∧
          (b < a →
            List.Pairwise (· > ·) ((newLle flash a b np).map ctrl))) ∧
    (∀ (σ γ : Type) (solve : ℚ → Option ℚ × Option γ → Option σ)
        (tpOf : σ → ℚ) (yOf : σ → γ) (ctrl : σ → ℚ) (x0 x1 : ℚ) (vle0 : σ)
        (vle1 : Option σ) (np : ℕ),
        2 ≤ np →
        (∀ t w s, solve t w = some s → ctrl s = t) → ctrl vle0 = x0 →
        (∀ v1, vle1 = some v1 → ctrl v1 = x1) →
        (iterateVle solve tpOf yOf x0 x1 vle0 vle1 np).length +
            contFails (ivScheme solve tpOf yOf) (some (tpOf vle0), none)
              (ivGrid x0 x1 np vle1.isSome) = np ∧
          (x0 < x1 →
            List.Pairwise (· < ·)
              ((iterateVle solve tpOf yOf x0 x1 vle0 vle1 np).map ctrl)) ∧
          (x1 < x0 →
            List.Pairwise (· > ·)
              ((iterateVle solve tpOf yOf x0 x1 vle0 vle1 np).map ctrl))) := by
  refine ⟨?_, ?_, ?_⟩
  · -- PhaseDiagram::pure
    intro σ solve ctrl scVle tmin tc np hnp hlt hsolve hsc
    have hTb := pureTmax_bounds tmin tc np hnp hlt
    have hgrid : pureTemperatures tmin tc np =
        linspace tmin (pureTmax tmin tc np) (np - 1) :=
      pureTemperatures_eq tmin tc np hnp
    constructor
    · have hlen := contFold_length (pureScheme solve) none
        (pureTemperatures tmin tc np)
      have hglen : (pureTemperatures tmin tc np).length = np - 1 := by
        rw [hgrid, linspace_length]
      unfold phaseDiagramPure
      rw [List.length_append]
      simp only [List.length_singleton]
      omega
    · have hsub : (((contFold (pureScheme solve) none
          (pureTemperatures tmin tc np)).2).map ctrl).Sublist
          (pureTemperatures tmin tc np) :=
        contFold_ctrl_sublist (pureScheme solve) ctrl hsolve none _
      have hgpw : List.Pairwise (· < ·)
          (linspace tmin (pureTmax tmin tc np) (np - 1)) := by
        rcases Nat.lt_or_ge np 3 with h3 | h3
        · have : np = 2 := by omega
          subst this
          rw [linspace_one]
          simp
        · exact linspace_pairwise_lt _ _ _ (pureTmax_gt tmin tc np h3 hlt)
      have houtpw : List.Pairwise (· < ·)
          (((contFold (pureScheme solve) none
            (pureTemperatures tmin tc np)).2).map ctrl) :=
        List.Pairwise.sublist (hgrid ▸ hsub) hgpw
      unfold phaseDiagramPure
      rw [List.map_append]
      rw [List.pairwise_append]
      refine ⟨houtpw, by simp, ?_⟩
      intro y hy z hz
      simp only [List.map_singleton, List.mem_singleton] at hz
      subst hz
      rw [hsc]
      have hy' : y ∈ pureTemperatures tmin tc np := hsub.subset hy
      rw [hgrid] at hy'
      have := linspace_mem_bounds tmin (pureTmax tmin tc np) (np - 1)
        hTb.1 y hy'
      linarith [hTb.2, this.2]
  · -- PhaseDiagramBinary::new_lle
    intro σ flash ctrl a b np hflash
    refine ⟨?_, ?_, ?_⟩
    · have hlen := contFold_length (pureScheme flash) none (linspace a b np)
      unfold newLle
      rw [linspace_length] at hlen
      exact hlen
    · intro hab
      have hsub : ((newLle flash a b np).map ctrl).Sublist (linspace a b np) :=
        contFold_ctrl_sublist (pureScheme flash) ctrl hflash none _
      exact List.Pairwise.sublist hsub (linspace_pairwise_lt a b np hab)
    · intro hba
      have hsub : ((newLle flash a b np).map ctrl).Sublist (linspace a b np) :=
        contFold_ctrl_sublist (pureScheme flash) ctrl hflash none _
      exact List.Pairwise.sublist hsub (linspace_pairwise_gt a b np hba)
  · -- iterate_vle
    intro σ γ solve tpOf yOf ctrl x0 x1 vle0 vle1 np hnp hsolve h0 h1
    obtain ⟨m, rfl⟩ : ∃ m, np = m + 2 := ⟨np - 2, by omega⟩
    refine ⟨?_, ?_, ?_⟩
    · cases vle1 with
      | some v1 =>
        have hlen := contFold_length (ivScheme solve tpOf yOf)
          (some (tpOf vle0), none) (ivGrid x0 x1 (m + 2) true)
        rw [ivGrid_length_some] at hlen
        unfold iterateVle
        simp only [Option.isSome_some, List.length_cons, List.length_append,
          List.length_singleton, List.length_nil]
        simp
        omega
      | none =>
        have hlen := contFold_length (ivScheme solve tpOf yOf)
          (some (tpOf vle0), none) (ivGrid x0 x1 (m + 2) false)
        rw [ivGrid_length_none] at hlen
        unfold iterateVle
        simp only [Option.isSome_none, List.length_cons, List.length_append,
          List.length_nil]
        omega
    · intro hx
      cases vle1 with
      | some v1 =>
        have hsub : (((contFold (ivScheme solve tpOf yOf)
            (some (tpOf vle0), none) (ivGrid x0 x1 (m + 2) true)).2).map
              ctrl).Sublist (ivGrid x0 x1 (m + 2) true) :=
          contFold_ctrl_sublist (ivScheme solve tpOf yOf) ctrl hsolve _ _
        have hmap : (iterateVle solve tpOf yOf x0 x1 vle0 (some v1)
            (m + 2)).map ctrl =
            x0 :: (((contFold (ivScheme solve tpOf yOf) (some (tpOf vle0), none)
              (ivGrid x0 x1 (m + 2) true)).2).map ctrl ++ [x1]) := by
          unfold iterateVle
          simp [h0, h1 v1 rfl]
        rw [hmap]
        refine List.Pairwise.sublist ?_ (linspace_pairwise_lt x0 x1 (m + 2) hx)
        rw [linspace_succ_succ, ← ivGrid_some]
        exact (List.Sublist.append hsub (List.Sublist.refl [x1])).cons₂ x0
      | none =>
        have hsub : (((contFold (ivScheme solve tpOf yOf)
            (some (tpOf vle0), none) (ivGrid x0 x1 (m + 2) false)).2).map
              ctrl).Sublist (ivGrid x0 x1 (m + 2) false) :=
          contFold_ctrl_sublist (ivScheme solve tpOf yOf) ctrl hsolve _ _
        have hmap : (iterateVle solve tpOf yOf x0 x1 vle0 none (m + 2)).map
            ctrl =
            x0 :: ((contFold (ivScheme solve tpOf yOf) (some (tpOf vle0), none)
              (ivGrid x0 x1 (m + 2) false)).2).map ctrl := by
          unfold iterateVle
          simp [h0]
        rw [hmap]
        refine List.Pairwise.sublist ?_ (linspace_pairwise_lt x0 x1 (m + 2) hx)
        rw [linspace_succ_succ, ← ivGrid_none]
        exact hsub.cons₂ x0
    · intro hx
      cases vle1 with
      | some v1 =>
        have hsub : (((contFold (ivScheme solve tpOf yOf)
            (some (tpOf vle0), none) (ivGrid x0 x1 (m + 2) true)).2).map
              ctrl).Sublist (ivGrid x0 x1 (m + 2) true) :=
          contFold_ctrl_sublist (ivScheme solve tpOf yOf) ctrl hsolve _ _
        have hmap : (iterateVle solve tpOf yOf x0 x1 vle0 (some v1)
            (m + 2)).map ctrl =
            x0 :: (((contFold (ivScheme solve tpOf yOf) (some (tpOf vle0), none)
              (ivGrid x0 x1 (m + 2) true)).2).map ctrl ++ [x1]) := by
          unfold iterateVle
          simp [h0, h1 v1 rfl]
        rw [hmap]
        refine List.Pairwise.sublist ?_ (linspace_pairwise_gt x0 x1 (m + 2) hx)
        rw [linspace_succ_succ, ← ivGrid_some]
        exact (List.Sublist.append hsub (List.Sublist.refl [x1])).cons₂ x0
      | none =>
        have hsub : (((contFold (ivScheme solve tpOf yOf)
            (some (tpOf vle0), none) (ivGrid x0 x1 (m + 2) false)).2).map
              ctrl).Sublist (ivGrid x0 x1 (m + 2) false) :=
          contFold_ctrl_sublist (ivScheme solve tpOf yOf) ctrl hsolve _ _
        have hmap : (iterateVle solve tpOf yOf x0 x1 vle0 none (m + 2)).map
            ctrl =
            x0 :: ((contFold (ivScheme solve tpOf yOf) (some (tpOf vle0), none)
              (ivGrid x0 x1 (m + 2) false)).2).map ctrl := by
          unfold iterateVle
          simp [h0]
        rw [hmap]
        refine List.Pairwise.sublist ?_ (linspace_pairwise_gt x0 x1 (m + 2) hx)
        rw [linspace_succ_succ, ← ivGrid_none]
        exact hsub.cons₂ x0

/-- Decidable equality of `Except` values, for evaluating the embedded
fallible functions on concrete inputs. -/
instance {ε α : Type} [DecidableEq ε] [DecidableEq α] :
    DecidableEq (Except ε α)
  | .ok a, .ok b =>
    if h : a = b then .isTrue (by rw [h])
    else .isFalse (by intro hc; cases hc; exact h rfl)
  | .error a, .error b =>
    if h : a = b then .isTrue (by rw [h])
    else .isFalse (by intro hc; cases hc; exact h rfl)
  | .ok _, .error _ => .isFalse (by intro hc; cases hc)
  | .error _, .ok _ => .isFalse (by intro hc; cases hc)

/-! ## Claim C3 -/

/-- An inner critical-point solver that fails at initial temperature 300 and
converges at every other initial temperature (to a state recording that
temperature). -/
def c3hkm : ℚ → Except EosError ℚ := fun t =>
  if t = 300 then .error (.NotConverged "Critical point") else .ok t

/-- C3, as stated, is false: the claim asserts that with no initial
temperature the trials 300, 500, 700 are attempted in that sequence and the
first convergent trial's result is returned.  With `c3hkm` (300 fails, 500 and
700 both converge) that sequence would return the trial at 500, but
`State::critical_point` tries 300, 700, 500 in source order and returns the
result of the trial at 700. -/
theorem claim_C3_counterexample :
    critical_point c3hkm none = .ok 700 ∧
      firstOk c3hkm [300, 500, 700] = .ok 500 ∧
      critical_point c3hkm none ≠ firstOk c3hkm [300, 500, 700] := by
  refine ⟨by decide, by decide, by decide⟩

/-- C3 (amended): when `State::critical_point` is called without an initial
temperature, the trial initial temperatures are attempted in the source order
300, 700, 500; the result of the first convergent trial is returned, and
`NotConverged` is returned exactly when every trial fails.  (With an initial
temperature, that temperature alone is used.) -/
theorem claim_C3_amended :
    trial_temperatures = [300, 700, 500] ∧
    (∀ (S : Type) (hkm : ℚ → Except EosError S) (t : ℚ),
        critical_point hkm (some t) = hkm t) ∧
    (∀ (S : Type) (hkm : ℚ → Except EosError S),
        critical_point hkm none = firstOk hkm [300, 700, 500]) ∧
    (∀ (S : Type) (hkm : ℚ → Except EosError S) (s : S),
        hkm 300 = .ok s → critical_point hkm none = .ok s) ∧
    (∀ (S : Type) (hkm : ℚ → Except EosError S) (e : EosError) (s : S),
        hkm 300 = .error e → hkm 700 = .ok s →
        critical_point hkm none = .ok s) ∧
    (∀ (S : Type) (hkm : ℚ → Except EosError S) (e1 e2 : EosError) (s : S),
        hkm 300 = .error e1 → hkm 700 = .error e2 → hkm 500 = .ok s →
        critical_point hkm none = .ok s) ∧
    (∀ (S : Type) (hkm : ℚ → Except EosError S) (e1 e2 e3 : EosError),
        hkm 300 = .error e1 → hkm 700 = .error e2 → hkm 500 = .error e3 →
        critical_point hkm none = .error (.NotConverged "Critical point")) := by
  refine ⟨rfl, ?_, ?_, ?_, ?_, ?_, ?_⟩
  · intro S hkm t
    rfl
  · intro S hkm
    rfl
  · intro S hkm s h3
    show firstOk hkm [300, 700, 500] = .ok s
    unfold firstOk
    rw [h3]
  · intro S hkm e s h3 h7
    show firstOk hkm [300, 700, 500] = .ok s
    unfold firstOk
    rw [h3]
    unfold firstOk
    rw [h7]
  · intro S hkm e1 e2 s h3 h7 h5
    show firstOk hkm [300, 700, 500] = .ok s
    unfold firstOk
    rw [h3]
    unfold firstOk
    rw [h7]
    unfold firstOk
    rw [h5]
  · intro S hkm e1 e2 e3 h3 h7 h5
    show firstOk hkm [300, 700, 500] = .error (.NotConverged "Critical point")
    unfold firstOk
    rw [h3]
    unfold firstOk
    rw [h7]
    unfold firstOk
    rw [h5]
    rfl

/-- An inner solver for the C3 witness: fails at 300, converges elsewhere. -/
def c3whkm : ℚ → Except EosError ℚ := fun t =>
  if t = 300 then .error .TrivialSolution else .ok t

/-- Witness for C3 (amended): with a solver failing at 300 and converging at
700, the dispatch returns the 700 trial. -/
theorem claim_C3_witness :
    c3whkm 300 = .error .TrivialSolution ∧ c3whkm 700 = .ok 700 ∧
      critical_point c3whkm none = .ok 700 :=
  ⟨by decide, by decide,
    claim_C3_amended.2.2.2.2.1 ℚ c3whkm .TrivialSolution 700 (by decide)
      (by decide)⟩

/-! ## Claim C4 -/

lemma dampStep_bounds (t M : ℚ) (ht : 0 < t) (hM : 0 < M) (delta : ℚ × ℚ) :
    |(dampStep t M delta).1| ≤ 1/4 * t ∧ |(dampStep t M delta).2| ≤ 3/100 * M := by
  have hq : (0 : ℚ) < 1/4 * t := by linarith
  have hm3 : (0 : ℚ) < 3/100 * M := by linarith
  unfold dampStep
  by_cases h1 : |delta.1| > 1/4 * t
  · have hpos : (0 : ℚ) < |delta.1| := lt_trans hq h1
    have hne : |delta.1| ≠ 0 := ne_of_gt hpos
    have hfac : (0 : ℚ) < 1/4 * t / |delta.1| := div_pos hq hpos
    have habs1 : |1/4 * t / |delta.1| * delta.1| = 1/4 * t := by
      rw [abs_mul, abs_of_pos hfac, div_mul_cancel₀ _ hne]
    simp only [if_pos h1]
    by_cases h2 : |1/4 * t / |delta.1| * delta.2| > 3/100 * M
    · have hpos2 : (0 : ℚ) < |1/4 * t / |delta.1| * delta.2| := lt_trans hm3 h2
      have hne2 : |1/4 * t / |delta.1| * delta.2| ≠ 0 := ne_of_gt hpos2
      have hfac2 : (0 : ℚ) < 3/100 * M / |1/4 * t / |delta.1| * delta.2| :=
        div_pos hm3 hpos2
      have hfac2le : 3/100 * M / |1/4 * t / |delta.1| * delta.2| ≤ 1 := by
        rw [div_le_one hpos2]
        linarith
      simp only [if_pos h2]
      constructor
      · rw [abs_mul, abs_of_pos hfac2, habs1]
        calc 3/100 * M / |1/4 * t / |delta.1| * delta.2| * (1/4 * t)
            ≤ 1 * (1/4 * t) := by
              exact mul_le_mul_of_nonneg_right hfac2le (le_of_lt hq)
          _ = 1/4 * t := one_mul _
      · rw [abs_mul, abs_of_pos hfac2, div_mul_cancel₀ _ hne2]
    · simp only [if_neg h2]
      exact ⟨le_of_eq habs1, le_of_not_lt h2⟩
  · simp only [if_neg h1]
    have hd1 : |delta.1| ≤ 1/4 * t := le_of_not_lt h1
    by_cases h2 : |delta.2| > 3/100 * M
    · have hpos2 : (0 : ℚ) < |delta.2| := lt_trans hm3 h2
      have hne2 : |delta.2| ≠ 0 := ne_of_gt hpos2
      have hfac2 : (0 : ℚ) < 3/100 * M / |delta.2| := div_pos hm3 hpos2
      have hfac2le : 3/100 * M / |delta.2| ≤ 1 := by
        rw [div_le_one hpos2]
        linarith
      simp only [if_pos h2]
      constructor
      · rw [abs_mul, abs_of_pos hfac2]
        calc 3/100 * M / |delta.2| * |delta.1| ≤ 1 * |delta.1| :=
              mul_le_mul_of_nonneg_right hfac2le (abs_nonneg _)
          _ = |delta.1| := one_mul _
          _ ≤ 1/4 * t := hd1
      · rw [abs_mul, abs_of_pos hfac2, div_mul_cancel₀ _ hne2]
    · simp only [if_neg h2]
      exact ⟨hd1, le_of_not_lt h2⟩

/-- C4: in every Newton iteration of the critical-point solver, the damped
step's temperature component is at most 25% of the current temperature in
magnitude and its density component at most 3% of the EOS maximum density in
magnitude; the step is applied by subtraction and the new density is floored
at `1e-4` times the maximum density. -/
theorem claim_C4 :
    ∀ (F : HkmOracle) (max_density t rho : ℚ), 0 < t → 0 < max_density →
      (|(dampStep t max_density (F.newton (t, rho))).1| ≤ 1/4 * t ∧
        |(dampStep t max_density (F.newton (t, rho))).2| ≤
          3/100 * max_density) ∧
      hkmIter F max_density (t, rho) =
        (t - (dampStep t max_density (F.newton (t, rho))).1,
          max (rho - (dampStep t max_density (F.newton (t, rho))).2)
            (1/10000 * max_density)) ∧
      1/10000 * max_density ≤ (hkmIter F max_density (t, rho)).2 := by
  intro F M t rho ht hM
  exact ⟨dampStep_bounds t M ht hM _, rfl, le_max_right _ _⟩

/-- An oracle with a large raw Newton step, for the C4 witness. -/
def c4F : HkmOracle := ⟨fun _ => 0, fun _ => (100, 100)⟩

/-- Witness for C4 at temperature 100, density 50, maximum density 200. -/
theorem claim_C4_witness :
    (|(dampStep 100 200 (c4F.newton (100, 50))).1| ≤ 1/4 * 100 ∧
      |(dampStep 100 200 (c4F.newton (100, 50))).2| ≤ 3/100 * 200) ∧
    hkmIter c4F 200 (100, 50) =
      (100 - (dampStep 100 200 (c4F.newton (100, 50))).1,
        max (50 - (dampStep 100 200 (c4F.newton (100, 50))).2)
          (1/10000 * 200)) ∧
    1/10000 * 200 ≤ (hkmIter c4F 200 (100, 50)).2 :=
  claim_C4 c4F 200 100 50 (by decide) (by decide)

/-! ## Claim C5 -/

/-- Start state for the heteroazeotrope counterexample runs: all partial
densities 1. -/
def c5s0 : HetT := ⟨(1, 1), (1, 1), (1, 1)⟩

/-- An oracle whose Newton step drives the first liquid density of component 1
to exactly 0 and whose residual norm drops below the tolerance afterwards. -/
def c5F : HetTOracle :=
  ⟨fun s => if s.l1.1 = 0 then 0 else 3, fun _ => ⟨(1, 0), (0, 0), (0, 0)⟩⟩

/-- C5, as stated, is false: the claim asserts the Newton update is rejected
with `IterationFailed` whenever a resulting per-component density is
non-positive.  With `c5F` the first update takes the density data from
`c5s0` to a state whose first component density is exactly 0 — non-positive —
yet the update is accepted (`is_sign_negative` is false at zero) and the
solver goes on to converge. -/
theorem claim_C5_counterexample :
    (hetTCand c5F c5s0).l1.1 = 0 ∧
      ¬ (c5F.resNorm c5s0 < 2) ∧
      hetTStep c5F c5s0 = .ok (hetTCand c5F c5s0) ∧
      hetTLoop c5F 2 2 c5s0 = .ok (hetTCand c5F c5s0) := by
  refine ⟨by norm_num [hetTCand, c5F, c5s0], by norm_num [c5F, c5s0], ?_, ?_⟩
  · norm_num [hetTStep, hetTNeg, hetTCand, c5F, c5s0]
  · norm_num [hetTLoop, hetTStep, hetTNeg, hetTCand, c5F, c5s0]

/-- C5 (amended): in both heteroazeotrope solvers a Newton update is rejected,
with the solver failing with `IterationFailed`, exactly when some resulting
per-component density of one of the three phases — or, in the fixed-pressure
variant, the resulting temperature — is strictly negative; a resulting value
of exactly zero is not rejected. -/
theorem claim_C5_amended :
    (∀ (F : HetTOracle) (s : HetT), hetTNeg (hetTCand F s) →
        hetTStep F s =
          .error (.IterationFailed "PhaseEquilibrium::heteroazeotrope_t")) ∧
    (∀ (F : HetTOracle) (s : HetT), ¬ hetTNeg (hetTCand F s) →
        hetTStep F s = .ok (hetTCand F s)) ∧
    (∀ (F : HetTOracle) (tol : ℚ) (n : ℕ) (s : HetT),
        ¬ F.resNorm s < tol → hetTNeg (hetTCand F s) →
        hetTLoop F tol (n + 1) s =
          .error (.IterationFailed "PhaseEquilibrium::heteroazeotrope_t")) ∧
    (∀ (F : HetPOracle) (s : HetP), hetPNeg (hetPCand F s) →
        hetPStep F s =
          .error (.IterationFailed "PhaseEquilibrium::heteroazeotrope_t")) ∧
    (∀ (F : HetPOracle) (s : HetP), ¬ hetPNeg (hetPCand F s) →
        hetPStep F s = .ok (hetPCand F s)) ∧
    (∀ (F : HetPOracle) (tol : ℚ) (n : ℕ) (s : HetP),
        ¬ F.resNorm s < tol → hetPNeg (hetPCand F s) →
        hetPLoop F tol (n + 1) s =
          .error (.IterationFailed "PhaseEquilibrium::heteroazeotrope_t")) := by
  refine ⟨?_, ?_, ?_, ?_, ?_, ?_⟩
  · intro F s h
    unfold hetTStep
    rw [if_pos h]
  · intro F s h
    unfold hetTStep
    rw [if_neg h]
  · intro F tol n s hres hneg
    unfold hetTLoop
    rw [if_neg hres]
    unfold hetTStep
    rw [if_pos hneg]
  · intro F s h
    unfold hetPStep
    rw [if_pos h]
  · intro F s h
    unfold hetPStep
    rw [if_neg h]
  · intro F tol n s hres hneg
    unfold hetPLoop
    rw [if_neg hres]
    unfold hetPStep
    rw [if_pos hneg]

/-- An oracle whose Newton step makes a density strictly negative, for the C5
witness. -/
def c5wF : HetTOracle := ⟨fun _ => 3, fun _ => ⟨(2, 0), (0, 0), (0, 0)⟩⟩

/-- Witness for C5 (amended): a strictly negative updated density is rejected
with `IterationFailed`. -/
theorem claim_C5_witness :
    ¬ (c5wF.resNorm c5s0 < 2) ∧ hetTNeg (hetTCand c5wF c5s0) ∧
      hetTLoop c5wF 2 3 c5s0 =
        .error (.IterationFailed "PhaseEquilibrium::heteroazeotrope_t") :=
  ⟨by norm_num [c5wF, c5s0], by norm_num [hetTNeg, hetTCand, c5wF, c5s0],
    claim_C5_amended.2.2.1 c5wF 2 2 c5s0 (by norm_num [c5wF, c5s0])
      (by norm_num [hetTNeg, hetTCand, c5wF, c5s0])⟩

/-! ## Claim C6 -/

lemma hkmTraj_shift (F : HkmOracle) (maxd : ℚ) (x0 : ℚ × ℚ) (i : ℕ) :
    hkmTraj F maxd x0 (i + 1) = hkmTraj F maxd (hkmIter F maxd x0) i := by
  simp [hkmTraj, Function.iterate_succ_apply]

lemma hkmLoop_char (F : HkmOracle) (maxd tol : ℚ) :
    ∀ (n : ℕ) (x0 : ℚ × ℚ),
      ((∃ s, hkmLoop F maxd tol n x0 = .ok s) ↔
        ∃ i < n, F.resNorm (hkmTraj F maxd x0 i) < tol) ∧
      (hkmLoop F maxd tol n x0 = .error (.NotConverged "Critical point") ↔
        ∀ i < n, ¬ F.resNorm (hkmTraj F maxd x0 i) < tol) := by
  intro n
  induction n with
  | zero =>
    intro x0
    constructor
    · simp [hkmLoop]
    · simp [hkmLoop]
  | succ n ih =>
    intro x0
    by_cases h : F.resNorm x0 < tol
    · constructor
      · constructor
        · intro _
          exact ⟨0, Nat.succ_pos n, by simpa [hkmTraj] using h⟩
        · intro _
          exact ⟨hkmIter F maxd x0, by simp [hkmLoop, if_pos h]⟩
      · constructor
        · intro hc
          simp [hkmLoop, if_pos h] at hc
        · intro hall
          exact absurd h (by simpa [hkmTraj] using hall 0 (Nat.succ_pos n))
    · have hstep : hkmLoop F maxd tol (n + 1) x0 =
          hkmLoop F maxd tol n (hkmIter F maxd x0) := by
        simp [hkmLoop, if_neg h]
      obtain ⟨ih1, ih2⟩ := ih (hkmIter F maxd x0)
      constructor
      · rw [hstep, ih1]
        constructor
        · rintro ⟨i, hi, hP⟩
          exact ⟨i + 1, by omega, by rwa [hkmTraj_shift]⟩
        · rintro ⟨i, hi, hP⟩
          cases i with
          | zero => exact absurd (by simpa [hkmTraj] using hP) h
          | succ j =>
            rw [hkmTraj_shift] at hP
            exact ⟨j, by omega, hP⟩
      · rw [hstep, ih2]
        constructor
        · intro hall i hi
          cases i with
          | zero => simpa [hkmTraj] using h
          | succ j =>
            rw [hkmTraj_shift]
            exact hall j (by omega)
        · intro hall j hj
          rw [← hkmTraj_shift]
          exact hall (j + 1) (by omega)

lemma hetTTraj_shift (F : HetTOracle) (s0 : HetT) (i : ℕ) :
    hetTTraj F s0 (i + 1) = hetTTraj F (hetTCand F s0) i := by
  simp [hetTTraj, Function.iterate_succ_apply]

lemma hetTLoop_char (F : HetTOracle) (tol : ℚ) :
    ∀ (n : ℕ) (s0 : HetT),
      (∀ i, i < n → ¬ hetTNeg (hetTCand F (hetTTraj F s0 i))) →
      ((∃ s, hetTLoop F tol n s0 = .ok s) ↔
        ∃ i < n, F.resNorm (hetTTraj F s0 i) < tol) ∧
      (hetTLoop F tol n s0 =
          .error (.NotConverged "PhaseEquilibrium::heteroazeotrope_t") ↔
        ∀ i < n, ¬ F.resNorm (hetTTraj F s0 i) < tol) := by
  intro n
  induction n with
  | zero =>
    intro s0 _
    constructor
    · simp [hetTLoop]
    · simp [hetTLoop]
  | succ n ih =>
    intro s0 hno
    by_cases h : F.resNorm s0 < tol
    · constructor
      · constructor
        · intro _
          exact ⟨0, Nat.succ_pos n, by simpa [hetTTraj] using h⟩
        · intro _
          exact ⟨s0, by simp [hetTLoop, if_pos h]⟩
      · constructor
        · intro hc
          simp [hetTLoop, if_pos h] at hc
        · intro hall
          exact absurd h (by simpa [hetTTraj] using hall 0 (Nat.succ_pos n))
    · have hnonneg : ¬ hetTNeg (hetTCand F s0) := by
        have := hno 0 (Nat.succ_pos n)
        simpa [hetTTraj] using this
      have hstep : hetTLoop F tol (n + 1) s0 =
          hetTLoop F tol n (hetTCand F s0) := by
        have e1 : hetTLoop F tol (n + 1) s0 =
            if F.resNorm s0 < tol then Except.ok s0
            else
              match hetTStep F s0 with
              | .error e => .error e
              | .ok s' => hetTLoop F tol n s' := rfl
        rw [e1, if_neg h]
        unfold hetTStep
        rw [if_neg hnonneg]
      have hno' : ∀ i, i < n → ¬ hetTNeg (hetTCand F
          (hetTTraj F (hetTCand F s0) i)) := by
        intro i hi
        rw [← hetTTraj_shift]
        exact hno (i + 1) (by omega)
      obtain ⟨ih1, ih2⟩ := ih (hetTCand F s0) hno'
      constructor
      · rw [hstep, ih1]
        constructor
        · rintro ⟨i, hi, hP⟩
          exact ⟨i + 1, by omega, by rwa [hetTTraj_shift]⟩
        · rintro ⟨i, hi, hP⟩
          cases i with
          | zero => exact absurd (by simpa [hetTTraj] using hP) h
          | succ j =>
            rw [hetTTraj_shift] at hP
            exact ⟨j, by omega, hP⟩
      · rw [hstep, ih2]
        constructor
        · intro hall i hi
          cases i with
          | zero => simpa [hetTTraj] using h
          | succ j =>
            rw [hetTTraj_shift]
            exact hall j (by omega)
        · intro hall j hj
          rw [← hetTTraj_shift]
          exact hall (j + 1) (by omega)

lemma hetPTraj_shift (F : HetPOracle) (s0 : HetP) (i : ℕ) :
    hetPTraj F s0 (i + 1) = hetPTraj F (hetPCand F s0) i := by
  simp [hetPTraj, Function.iterate_succ_apply]

lemma hetPLoop_char (F : HetPOracle) (tol : ℚ) :
    ∀ (n : ℕ) (s0 : HetP),
      (∀ i, i < n → ¬ hetPNeg (hetPCand F (hetPTraj F s0 i))) →
      ((∃ s, hetPLoop F tol n s0 = .ok s) ↔
        ∃ i < n, F.resNorm (hetPTraj F s0 i) < tol) ∧
      (hetPLoop F tol n s0 =
          .error (.NotConverged "PhaseEquilibrium::heteroazeotrope_t") ↔
        ∀ i < n, ¬ F.resNorm (hetPTraj F s0 i) < tol) := by
  intro n
  induction n with
  | zero =>
    intro s0 _
    constructor
    · simp [hetPLoop]
    · simp [hetPLoop]
  | succ n ih =>
    intro s0 hno
    by_cases h : F.resNorm s0 < tol
    · constructor
      · constructor
        · intro _
          exact ⟨0, Nat.succ_pos n, by simpa [hetPTraj] using h⟩
        · intro _
          exact ⟨s0, by simp [hetPLoop, if_pos h]⟩
      · constructor
        · intro hc
          simp [hetPLoop, if_pos h] at hc
        · intro hall
          exact absurd h (by simpa [hetPTraj] using hall 0 (Nat.succ_pos n))
    · have hnonneg : ¬ hetPNeg (hetPCand F s0) := by
        have := hno 0 (Nat.succ_pos n)
        simpa [hetPTraj] using this
      have hstep : hetPLoop F tol (n + 1) s0 =
          hetPLoop F tol n (hetPCand F s0) := by
        have e1 : hetPLoop F tol (n + 1) s0 =
            if F.resNorm s0 < tol then Except.ok s0
            else
              match hetPStep F s0 with
              | .error e => .error e
              | .ok s' => hetPLoop F tol n s' := rfl
        rw [e1, if_neg h]
        unfold hetPStep
        rw [if_neg hnonneg]
      have hno' : ∀ i, i < n → ¬ hetPNeg (hetPCand F
          (hetPTraj F (hetPCand F s0) i)) := by
        intro i hi
        rw [← hetPTraj_shift]
        exact hno (i + 1) (by omega)
      obtain ⟨ih1, ih2⟩ := ih (hetPCand F s0) hno'
      constructor
      · rw [hstep, ih1]
        constructor
        · rintro ⟨i, hi, hP⟩
          exact ⟨i + 1, by omega, by rwa [hetPTraj_shift]⟩
        · rintro ⟨i, hi, hP⟩
          cases i with
          | zero => exact absurd (by simpa [hetPTraj] using hP) h
          | succ j =>
            rw [hetPTraj_shift] at hP
            exact ⟨j, by omega, hP⟩
      · rw [hstep, ih2]
        constructor
        · intro hall i hi
          cases i with
          | zero => simpa [hetPTraj] using h
          | succ j =>
            rw [hetPTraj_shift]
            exact hall j (by omega)
        · intro hall j hj
          rw [← hetPTraj_shift]
          exact hall (j + 1) (by omega)

/-- C6: the critical-point Newton iteration and both heteroazeotrope solvers
return a converged state exactly when the residual norm falls below the
tolerance at some iterate within the iteration budget, and return
`NotConverged` exactly when the budget is exhausted without that happening
(for the heteroazeotrope loops: along a trajectory on which no Newton update
is rejected for a negative density/temperature).  The last three conjuncts
pin the defaults: with `SolverOptions::default()` the loops run with
tolerance `1e-8` and budget `50` iterations. -/
theorem claim_C6 :
    (∀ (F : HkmOracle) (maxd tol : ℚ) (n : ℕ) (x0 : ℚ × ℚ),
        ((∃ s, hkmLoop F maxd tol n x0 = .ok s) ↔
          ∃ i < n, F.resNorm (hkmTraj F maxd x0 i) < tol) ∧
        (hkmLoop F maxd tol n x0 = .error (.NotConverged "Critical point") ↔
          ∀ i < n, ¬ F.resNorm (hkmTraj F maxd x0 i) < tol)) ∧
    (∀ (F : HetTOracle) (tol : ℚ) (n : ℕ) (s0 : HetT),
        (∀ i, i < n → ¬ hetTNeg (hetTCand F (hetTTraj F s0 i))) →
        ((∃ s, hetTLoop F tol n s0 = .ok s) ↔
          ∃ i < n, F.resNorm (hetTTraj F s0 i) < tol) ∧
        (hetTLoop F tol n s0 =
            .error (.NotConverged "PhaseEquilibrium::heteroazeotrope_t") ↔
          ∀ i < n, ¬ F.resNorm (hetTTraj F s0 i) < tol)) ∧
    (∀ (F : HetPOracle) (tol : ℚ) (n : ℕ) (s0 : HetP),
        (∀ i, i < n → ¬ hetPNeg (hetPCand F (hetPTraj F s0 i))) →
        ((∃ s, hetPLoop F tol n s0 = .ok s) ↔
          ∃ i < n, F.resNorm (hetPTraj F s0 i) < tol) ∧
        (hetPLoop F tol n s0 =
            .error (.NotConverged "PhaseEquilibrium::heteroazeotrope_t") ↔
          ∀ i < n, ¬ F.resNorm (hetPTraj F s0 i) < tol)) ∧
    (∀ (F : HkmOracle) (maxd t0 : ℚ),
        critical_point_hkm F maxd t0 SolverOptions.default =
          hkmLoop F maxd (1/100000000) 50 (t0, 3/10 * maxd)) ∧
    (∀ (F : HetTOracle) (s0 : HetT),
        heteroazeotrope_t F SolverOptions.default s0 =
          hetTLoop F (1/100000000) 50 s0) ∧
    (∀ (F : HetPOracle) (s0 : HetP),
        heteroazeotrope_p F SolverOptions.default s0 =
          hetPLoop F (1/100000000) 50 s0) :=
  ⟨fun F maxd tol n x0 => hkmLoop_char F maxd tol n x0,
    fun F tol n s0 h => hetTLoop_char F tol n s0 h,
    fun F tol n s0 h => hetPLoop_char F tol n s0 h,
    fun _ _ _ => rfl, fun _ _ => rfl, fun _ _ => rfl⟩

/-- A heteroazeotrope oracle that is already converged, for the C6 witness. -/
def c6F : HetTOracle := ⟨fun _ => 0, fun _ => ⟨(0, 0), (0, 0), (0, 0)⟩⟩

/-- Start state for the C6 witness. -/
def c6s0 : HetT := ⟨(1, 1), (1, 1), (1, 1)⟩

/-- Witness for C6 at a concrete heteroazeotrope run with budget 1. -/
theorem claim_C6_witness :
    ((∃ s, hetTLoop c6F 1 1 c6s0 = .ok s) ↔
      ∃ i < 1, c6F.resNorm (hetTTraj c6F c6s0 i) < 1) ∧
    (hetTLoop c6F 1 1 c6s0 =
        .error (.NotConverged "PhaseEquilibrium::heteroazeotrope_t") ↔
      ∀ i < 1, ¬ c6F.resNorm (hetTTraj c6F c6s0 i) < 1) :=
  claim_C6.2.1 c6F 1 1 c6s0 (by
    intro i hi
    have hi0 : i = 0 := by omega
    subst hi0
    norm_num [hetTNeg, hetTCand, hetTTraj, c6F, c6s0])

/-! ## Claim C7 -/

/-- C7: `critical_point_binary` runs the Brent executor over the composition
bracket `(1e-10, 1 - 1e-10)`, strictly inside the open interval `(0, 1)`; the
objective at a trial composition `x` builds the mole pair `(x, 1 - x)`,
computes the critical point there, and returns the signed difference between
that state's pressure (pressure specification) or temperature (temperature
specification) and the target; inner errors propagate, and the root found by
Brent is turned into the final critical state. -/
theorem claim_C7 :
    (0 < brent_bounds.1 ∧ brent_bounds.1 < brent_bounds.2 ∧
      brent_bounds.2 < 1) ∧
    (∀ (crit : ℚ × ℚ → SolverOptions → Except EosError CritState) (tp : TPSpec)
        (x : ℚ) (st : CritState),
        crit (x, 1 - x) SolverOptions.default = .ok st →
        critOpApply crit tp x =
          .ok (match tp with
               | .pressure p => st.pressure - p
               | .temperature t => st.temperature - t)) ∧
    (∀ (crit : ℚ × ℚ → SolverOptions → Except EosError CritState) (tp : TPSpec)
        (x : ℚ) (e : EosError),
        crit (x, 1 - x) SolverOptions.default = .error e →
        critOpApply crit tp x = .error e) ∧
    (∀ (brent : ℚ × ℚ → ℚ → ℕ → ℚ → (ℚ → Except EosError ℚ) →
          Except EosError ℚ)
        (crit : ℚ × ℚ → SolverOptions → Except EosError CritState)
        (tp : TPSpec) (options : SolverOptions),
        critical_point_binary brent crit tp options =
          match brent brent_bounds (options.tol.getD TOL_CRIT_POINT)
              (options.max_iter.getD MAX_ITER_CRIT_POINT) (1/2)
              (critOpApply crit tp) with
          | .error e => .error e
          | .ok x => crit (x, 1 - x) SolverOptions.default) := by
  refine ⟨⟨by norm_num [brent_bounds], by norm_num [brent_bounds],
      by norm_num [brent_bounds]⟩, ?_, ?_, ?_⟩
  · intro crit tp x st h
    unfold critOpApply
    rw [h]
    cases tp <;> rfl
  · intro crit tp x e h
    unfold critOpApply
    rw [h]
  · intro brent crit tp options
    rfl

/-- A constant inner critical-point solver for the C7 witness. -/
def c7crit : ℚ × ℚ → SolverOptions → Except EosError CritState :=
  fun _ _ => .ok ⟨7, 9⟩

/-- Witness for C7 at the trial composition `x = 2` with a temperature
specification of 5. -/
theorem claim_C7_witness :
    c7crit (2, 1 - 2) SolverOptions.default = .ok ⟨7, 9⟩ ∧
      critOpApply c7crit (.temperature 5) 2 =
        .ok ((⟨7, 9⟩ : CritState).temperature - 5) :=
  ⟨rfl, claim_C7.2.1 c7crit (.temperature 5) 2 ⟨7, 9⟩ rfl⟩

/-! ## Claim C8 -/

/-- An inner critical-point solver that reports the `max_iter` field of the
solver options it was invoked with (`-1` encoding `None`). -/
def c8crit : ℚ × ℚ → SolverOptions → Except EosError CritState :=
  fun _ o =>
    .ok ⟨(match o.max_iter with
          | some k => (k : ℚ)
          | none => -1), 0⟩

/-- A Brent executor that immediately returns its initial parameter. -/
def c8brent : ℚ × ℚ → ℚ → ℕ → ℚ → (ℚ → Except EosError ℚ) →
    Except EosError ℚ :=
  fun _ _ _ x0 _ => .ok x0

/-- C8, as stated, is false: the claim asserts that the options passed to
`critical_point_binary` govern each inner per-composition critical-point
iteration.  Calling the solver with `max_iter = Some 7` returns a state built
by an inner call that saw `max_iter = None` — `SolverOptions::default()` —
both in the objective (`CritOp::apply`, line 265) and in the final
critical-point call (line 81); had the caller's options been threaded through,
the result would encode 7. -/
theorem claim_C8_counterexample :
    critical_point_binary c8brent c8crit (.temperature 0) ⟨some 7, some 1⟩ =
        .ok ⟨-1, 0⟩ ∧
      c8crit (1/2, 1 - 1/2) ⟨some 7, some 1⟩ = .ok ⟨7, 0⟩ ∧
      critOpApply c8crit (.temperature 0) (1/2) = .ok (-1 - 0) :=
  ⟨rfl, rfl, rfl⟩

/-- C8 (amended): the caller-supplied options govern only the outer Brent
root-find (its tolerance and iteration budget, with defaults `1e-8` and 50);
every inner per-composition critical-point call — the objective's and the
final one — is made with `SolverOptions::default()` instead.  Conjunct 1:
the result depends on the inner solver only through its behaviour at default
options.  Conjunct 2: the result depends on the caller's options only through
the resolved outer tolerance and budget.  Conjunct 3: the exact data flow. -/
theorem claim_C8_amended :
    (∀ (brent : ℚ × ℚ → ℚ → ℕ → ℚ → (ℚ → Except EosError ℚ) →
          Except EosError ℚ)
        (crit crit' : ℚ × ℚ → SolverOptions → Except EosError CritState)
        (tp : TPSpec) (o : SolverOptions),
        (∀ m, crit m SolverOptions.default = crit' m SolverOptions.default) →
        critical_point_binary brent crit tp o =
          critical_point_binary brent crit' tp o) ∧
    (∀ (brent : ℚ × ℚ → ℚ → ℕ → ℚ → (ℚ → Except EosError ℚ) →
          Except EosError ℚ)
        (crit : ℚ × ℚ → SolverOptions → Except EosError CritState)
        (tp : TPSpec) (o o' : SolverOptions),
        o.tol.getD TOL_CRIT_POINT = o'.tol.getD TOL_CRIT_POINT →
        o.max_iter.getD MAX_ITER_CRIT_POINT =
          o'.max_iter.getD MAX_ITER_CRIT_POINT →
        critical_point_binary brent crit tp o =
          critical_point_binary brent crit tp o') ∧
    (∀ (brent : ℚ × ℚ → ℚ → ℕ → ℚ → (ℚ → Except EosError ℚ) →
          Except EosError ℚ)
        (crit : ℚ × ℚ → SolverOptions → Except EosError CritState)
        (tp : TPSpec) (o : SolverOptions),
        critical_point_binary brent crit tp o =
          match brent brent_bounds (o.tol.getD TOL_CRIT_POINT)
              (o.max_iter.getD MAX_ITER_CRIT_POINT) (1/2)
              (critOpApply crit tp) with
          | .error e => .error e
          | .ok x => crit (x, 1 - x) SolverOptions.default) := by
  refine ⟨?_, ?_, ?_⟩
  · intro brent crit crit' tp o h
    have hobj : critOpApply crit tp = critOpApply crit' tp := by
      funext x
      unfold critOpApply
      rw [h (x, 1 - x)]
    unfold critical_point_binary
    rw [hobj]
    cases hb : brent brent_bounds (o.tol.getD TOL_CRIT_POINT)
        (o.max_iter.getD MAX_ITER_CRIT_POINT) (1/2)
        (critOpApply crit' tp) with
    | error e => rfl
    | ok x => exact h (x, 1 - x)
  · intro brent crit tp o o' h1 h2
    unfold critical_point_binary
    rw [h1, h2]
  · intro brent crit tp o
    rfl

/-- Witness for C8 (amended): explicitly passing the default tolerance and
budget is the same as passing `SolverOptions::default()`. -/
theorem claim_C8_witness :
    critical_point_binary c8brent c8crit (.temperature 0)
        ⟨some 50, some (1/100000000)⟩ =
      critical_point_binary c8brent c8crit (.temperature 0)
        SolverOptions.default :=
  claim_C8_amended.2.1 c8brent c8crit (.temperature 0)
    ⟨some 50, some (1/100000000)⟩ SolverOptions.default rfl rfl

/-! ## Claim C9 -/

lemma collectResults_ok_iff {E A : Type} :
    ∀ (l : List (Except E A)) (v : List A),
      collectResults l = .ok v ↔ l = v.map Except.ok := by
  intro l
  induction l with
  | nil =>
    intro v
    cases v <;> simp [collectResults]
  | cons x xs ih =>
    intro v
    cases x with
    | error e =>
      cases v <;> simp [collectResults]
    | ok a =>
      cases v with
      | nil =>
        simp only [collectResults, List.map_nil]
        cases hr : collectResults xs <;> simp
      | cons b bs =>
        simp only [collectResults, List.map_cons, List.cons.injEq,
          Except.ok.injEq]
        cases hr : collectResults xs with
        | error e =>
          constructor
          · intro hc
            cases hc
          · rintro ⟨rfl, h2⟩
            have := (ih bs).mpr h2
            rw [this] at hr
            cases hr
        | ok as_ =>
          have hxs := (ih as_).mp hr
          constructor
          · intro hc
            injection hc with hc2
            injection hc2 with hab hasbs
            subst hab
            subst hasbs
            exact ⟨rfl, hxs⟩
          · rintro ⟨rfl, h2⟩
            have hbs : as_ = bs := by
              have := (ih bs).mpr h2
              rw [this] at hr
              injection hr with h3
              exact h3.symm
            rw [hbs]

/-- C9: for an EOS with `ncomp` components, `critical_point_pure` returns
`Ok(v)` exactly when every per-component critical-point calculation on the
single-component subset EOS `eos.subset(&[i])` succeeds, in which case `v`
has length `ncomp` and its `i`-th entry is the critical point of component
`i`, in component order; it returns an error whenever any component's
calculation fails. -/
theorem claim_C9 :
    ∀ (ε S : Type) (ncomp : ℕ) (subset1 : ℕ → ε)
      (hkm : ε → ℚ → Except EosError S) (t0 : Option ℚ),
      (∀ v : List S,
        critical_point_pure ncomp subset1 hkm t0 = .ok v ↔
          (List.range ncomp).map
              (fun i => critical_point (hkm (subset1 i)) t0) =
            v.map Except.ok) ∧
      (∀ v : List S,
        critical_point_pure ncomp subset1 hkm t0 = .ok v →
          v.length = ncomp) ∧
      (∀ (v : List S) (i : ℕ) (hi : i < v.length),
        critical_point_pure ncomp subset1 hkm t0 = .ok v →
          critical_point (hkm (subset1 i)) t0 = .ok (v.get ⟨i, hi⟩)) ∧
      ((∃ i, i < ncomp ∧
          ∃ e, critical_point (hkm (subset1 i)) t0 = .error e) →
        ∃ e, critical_point_pure ncomp subset1 hkm t0 = .error e) := by
  intro ε S ncomp subset1 hkm t0
  have hiff : ∀ v : List S,
      critical_point_pure ncomp subset1 hkm t0 = .ok v ↔
        (List.range ncomp).map
            (fun i => critical_point (hkm (subset1 i)) t0) =
          v.map Except.ok :=
    fun v => collectResults_ok_iff _ v
  have hlen : ∀ v : List S,
      critical_point_pure ncomp subset1 hkm t0 = .ok v → v.length = ncomp := by
    intro v hv
    have h := (hiff v).mp hv
    have := congrArg List.length h
    simpa using this.symm
  refine ⟨hiff, hlen, ?_, ?_⟩
  · intro v i hi hv
    have h := (hiff v).mp hv
    have hvn : v.length = ncomp := hlen v hv
    have hin : i < ncomp := by omega
    have hq : ((List.range ncomp).map
        (fun i => critical_point (hkm (subset1 i)) t0))[i]? =
        (v.map Except.ok)[i]? := by rw [h]
    rw [List.getElem?_map, List.getElem?_map, List.getElem?_range hin,
      List.getElem?_eq_getElem (by omega : i < v.length)] at hq
    simp only [Option.map_some', Option.some.injEq] at hq
    exact hq
  · intro hex
    cases hres : critical_point_pure ncomp subset1 hkm t0 with
    | error e => exact ⟨e, rfl⟩
    | ok v =>
      obtain ⟨i, hi, e, he⟩ := hex
      have h := (hiff v).mp hres
      have hmem : (Except.error e : Except EosError S) ∈
          (List.range ncomp).map
            (fun i => critical_point (hkm (subset1 i)) t0) :=
        List.mem_map.mpr ⟨i, List.mem_range.mpr hi, he⟩
      rw [h] at hmem
      obtain ⟨a, _, ha⟩ := List.mem_map.mp hmem
      cases ha

/-- A per-component inner solver whose component 1 never converges, for the
C9 witness. -/
def c9hkm : ℕ → ℚ → Except EosError ℚ :=
  fun e t => if e = 1 then .error .TrivialSolution else .ok t

/-- Witness for C9: with component 1 failing, `critical_point_pure` over two
components returns an error. -/
theorem claim_C9_witness :
    (1 < 2 ∧
      critical_point (c9hkm (id 1)) none =
        .error (.NotConverged "Critical point")) ∧
      ∃ e, critical_point_pure 2 id c9hkm none = .error e :=
  ⟨⟨by decide, by decide⟩,
    (claim_C9 ℕ ℚ 2 id c9hkm none).2.2.2
      ⟨1, by decide, .NotConverged "Critical point", by decide⟩⟩

/-! ## Claim C10 -/

/-- C10: the binary VLE constructors (`new_txy`/`new_pxy` via `new_vle`)
return `SuperCritical` when neither pure component has a saturation state at
the specification, and the two-branch VLLE construction `new_vlle` (the path
taken when liquid compositions `x_lle` are supplied) succeeds exactly when
both pure components have a saturation state, returning `SuperCritical`
otherwise. -/
theorem claim_C10 :
    (∀ (σ γ : Type) (solve : ℚ → Option ℚ × Option γ → Option σ)
        (tpOf : σ → ℚ) (yOf : σ → γ) (cpb : Except EosError (ℚ × σ))
        (tp : TPSpec) (npointsOpt : Option ℕ),
        new_vle solve tpOf yOf cpb tp npointsOpt none
          ((none, none) : Option σ × Option σ) = .error .SuperCritical) ∧
    (∀ (σ γ : Type) (solve : ℚ → Option ℚ × Option γ → Option σ)
        (tpOf : σ → ℚ) (yOf : σ → γ) (npoints : ℕ) (xl : ℚ × ℚ)
        (vle_sat : Option σ × Option σ),
        (new_vlle solve tpOf yOf npoints xl vle_sat =
            .error .SuperCritical ↔
          vle_sat.1 = none ∨ vle_sat.2 = none) ∧
        (∀ v2 v1, vle_sat = (some v2, some v1) →
          new_vlle solve tpOf yOf npoints xl vle_sat =
            .ok (iterateVle solve tpOf yOf 0 xl.1 v2 none (npoints / 2),
              iterateVle solve tpOf yOf 1 xl.2 v1 none
                (npoints - npoints / 2)))) ∧
    (∀ (σ γ : Type) (solve : ℚ → Option ℚ × Option γ → Option σ)
        (tpOf : σ → ℚ) (yOf : σ → γ) (cpb : Except EosError (ℚ × σ))
        (tp : TPSpec) (npointsOpt : Option ℕ) (xl : ℚ × ℚ)
        (sat : Option σ × Option σ),
        ((∃ st, new_vle solve tpOf yOf cpb tp npointsOpt (some xl) sat =
            .ok st) ↔ (∃ v1 v2, sat = (some v1, some v2))) ∧
        (sat.1 = none ∨ sat.2 = none →
          new_vle solve tpOf yOf cpb tp npointsOpt (some xl) sat =
            .error .SuperCritical)) := by
  refine ⟨?_, ?_, ?_⟩
  · intro σ γ solve tpOf yOf cpb tp npointsOpt
    rfl
  · intro σ γ solve tpOf yOf npoints xl vle_sat
    obtain ⟨s1, s2⟩ := vle_sat
    constructor
    · cases s1 <;> cases s2 <;> simp [new_vlle]
    · intro v2 v1 h
      rw [h]
      rfl
  · intro σ γ solve tpOf yOf cpb tp npointsOpt xl sat
    obtain ⟨s1, s2⟩ := sat
    constructor
    · cases s1 <;> cases s2 <;> simp [new_vle, new_vlle]
    · intro h
      rcases h with h | h
      · simp only at h
        subst h
        cases s2 <;> rfl
      · simp only at h
        subst h
        cases s1 <;> rfl

/-- A step solver that never converges, for the C10 witness. -/
def c10solve : ℚ → Option ℚ × Option ℚ → Option ℚ := fun _ _ => none

/-- Witness for C10: with the first pure component supercritical, the VLLE
path returns `SuperCritical`. -/
theorem claim_C10_witness :
    (((none, some 1) : Option ℚ × Option ℚ).1 = none ∨
        ((none, some 1) : Option ℚ × Option ℚ).2 = none) ∧
      new_vle c10solve id id (.ok (1/2, 1)) (.temperature 3) none
        (some (1/4, 3/4)) ((none, some 1) : Option ℚ × Option ℚ) =
        .error .SuperCritical :=
  ⟨Or.inl rfl,
    (claim_C10.2.2 ℚ ℚ c10solve id id (.ok (1/2, 1)) (.temperature 3) none
      (1/4, 3/4) (none, some 1)).2 (Or.inl rfl)⟩

/-- A step solver that converges at every temperature to an equilibrium at
that temperature, for the C2 witness. -/
def c2wsolve : ℚ → Option ℚ → Option ℚ := fun t _ => some t

/-- Witness for C2 at a concrete pure-component diagram with 3 points from
temperature 0 up to critical temperature 10. -/
theorem claim_C2_witness :
    (phaseDiagramPure c2wsolve (10 : ℚ) 0 10 3).length +
        contFails (pureScheme c2wsolve) none (pureTemperatures 0 10 3) = 3 ∧
      List.Pairwise (· < ·)
        ((phaseDiagramPure c2wsolve (10 : ℚ) 0 10 3).map id) :=
  claim_C2.1 ℚ c2wsolve id 10 0 10 3 (by decide) (by decide)
    (fun t w s h => (Option.some.inj h).symm) rfl
